import Mathlib

/-!
Verification development for the cv-tailor browser extension.

The TypeScript sources are shallowly embedded: pure functions become Lean
functions over `List Char` / `String`, the page DOM is abstracted into a
record of the values the detection code reads from it, LLM calls and the
JSON.parse / JSON.stringify builtins are passed in as function parameters,
and JavaScript regular expressions are embedded as explicit scanning
functions implementing the same matching semantics (case folding, word
boundaries, greedy and lazy repetition, alternation order, lastIndex
advancement).

JavaScript `.length` counts UTF-16 units; the embedding counts characters,
which agrees on the ASCII inputs the theorems use.
-/

set_option maxRecDepth 4000

namespace CVTailor

/-! ## JavaScript character classes and basic string primitives -/

/-- JavaScript regex word character class `\w` = `[A-Za-z0-9_]`. -/
def isWordChar (c : Char) : Bool :=
  c.isAlphanum || c == '_'

/-- JavaScript whitespace class `\s` (the ASCII members; the Unicode space
    members do not occur in any input considered here). -/
def isJsSpace (c : Char) : Bool :=
  c == ' ' || c == '\t' || c == '\n' || c == '\r' || c == '\x0b' || c == '\x0c'

/-- Case-insensitive "does `s` start with `kw`" (regex `i` flag semantics,
    ASCII case folding). -/
def ciStartsWith : List Char → List Char → Bool
  | [], _ => true
  | _ :: _, [] => false
  | k :: ks, c :: cs => (k.toLower == c.toLower) && ciStartsWith ks cs

/-- Case-sensitive "does `s` start with `kw`". -/
def startsWithL : List Char → List Char → Bool
  | [], _ => true
  | _ :: _, [] => false
  | k :: ks, c :: cs => (k == c) && startsWithL ks cs

/-- JavaScript `hay.includes(needle)` (case-sensitive substring test). -/
def includesL (needle : List Char) : List Char → Bool
  | [] => needle.isEmpty
  | c :: rest => startsWithL needle (c :: rest) || includesL needle rest

/-- `String.prototype.toLowerCase` (ASCII case folding, character map). -/
def toLowerS (s : String) : String :=
  String.mk (s.data.map Char.toLower)

/-- `String.prototype.toUpperCase` (ASCII case folding, character map). -/
def toUpperS (s : String) : String :=
  String.mk (s.data.map Char.toUpper)

/-- JavaScript `String.prototype.trim` (drop whitespace at both ends). -/
def trimL (s : List Char) : List Char :=
  ((s.dropWhile isJsSpace).reverse.dropWhile isJsSpace).reverse

def trimS (s : String) : String :=
  String.mk (trimL s.data)

/-- One pass of `str.replace(/p+/g, rep)` for a character class `p`: every
    maximal run of characters satisfying `p` is replaced by the single
    character `rep`.  `inRun` records whether the previous input character
    was part of a run. -/
def collapseAux (p : Char → Bool) (rep : Char) : Bool → List Char → List Char
  | _, [] => []
  | inRun, c :: rest =>
    if p c then
      if inRun then collapseAux p rep true rest
      else rep :: collapseAux p rep true rest
    else c :: collapseAux p rep false rest

/-- `str.replace(/\s+/g, " ")`. -/
def collapseWs (s : List Char) : List Char :=
  collapseAux isJsSpace ' ' false s

/-- `str.replace(/\n+/g, "\n")`. -/
def collapseNl (s : List Char) : List Char :=
  collapseAux (fun c => c == '\n') '\n' false s

/-- `cleanText` from the content script:
    `text.replace(/\s+/g, " ").replace(/\n+/g, "\n").trim()`. -/
def cleanTextL (s : List Char) : List Char :=
  trimL (collapseNl (collapseWs s))

def cleanText (s : String) : String :=
  String.mk (cleanTextL s.data)

/-- Drop input up to and including the first case-insensitive occurrence of
    `kw`; if `kw` does not occur the whole input is dropped. -/
def dropThrough (kw : List Char) : List Char → List Char
  | [] => []
  | c :: rest =>
    if ciStartsWith kw (c :: rest) then (c :: rest).drop kw.length
    else dropThrough kw rest

theorem length_dropThrough_le (kw : List Char) (s : List Char) :
    (dropThrough kw s).length ≤ s.length := by
  induction s with
  | nil => simp [dropThrough]
  | cons c rest ih =>
    simp only [dropThrough]
    split
    · simp
    · exact Nat.le_trans ih (Nat.le_succ _)

/-- Removal of the `script`/`style` elements of `cleanHtml`.  The DOM
    operation (`div.innerHTML = html` followed by removing those elements)
    is modelled textually: everything from an opening `<script`/`<style`
    through the matching close tag is dropped.  `fuel` bounds the scan
    steps; each step consumes at least one character, so the input length
    is enough fuel. -/
def removeScriptStyleAux : Nat → List Char → List Char
  | 0, _ => []
  | _ + 1, [] => []
  | fuel + 1, c :: rest =>
    if c == '<' then
      if ciStartsWith "script".data rest then
        removeScriptStyleAux fuel (dropThrough "</script>".data rest)
      else if ciStartsWith "style".data rest then
        removeScriptStyleAux fuel (dropThrough "</style>".data rest)
      else c :: removeScriptStyleAux fuel rest
    else c :: removeScriptStyleAux fuel rest

def removeScriptStyle (s : List Char) : List Char :=
  removeScriptStyleAux s.length s

/-- Tag removal part of the DOM `textContent` read in `cleanHtml`:
    characters between `<` and the next `>` are markup, the rest is text.
    (HTML entity decoding is not modelled; no input considered here
    contains entities.)  `inTag` records whether we are inside a tag. -/
def stripTagsAux : Bool → List Char → List Char
  | _, [] => []
  | true, c :: rest => stripTagsAux (c != '>') rest
  | false, c :: rest =>
    if c == '<' then stripTagsAux true rest
    else c :: stripTagsAux false rest

/-- Digit value for a decimal numeric character reference. -/
def decDigit (c : Char) : Option Nat :=
  let n := c.toNat
  if 48 ≤ n && n ≤ 57 then some (n - 48) else none

/-- Digit value for a hexadecimal numeric character reference (the decimal
    digits, then `a`-`f`, then `A`-`F`). -/
def hexDigit (c : Char) : Option Nat :=
  let n := c.toNat
  if 48 ≤ n && n ≤ 57 then some (n - 48)
  else if 97 ≤ n && n ≤ 102 then some (n - 87)
  else if 65 ≤ n && n ≤ 70 then some (n - 55)
  else none

/-- Accumulate a numeric reference up to its terminating `;`, returning the
    code point and the rest of the input; `none` if a non-digit appears
    before the `;`. -/
def numRefAux (dv : Char → Option Nat) (base : Nat) :
    List Char → Nat → Option (Nat × List Char)
  | [], _ => none
  | c :: rest, acc =>
    match dv c with
    | some d => numRefAux dv base rest (acc * base + d)
    | none => if c = ';' then some (acc, rest) else none

/-- A numeric character reference body (after `&#`): an optional `x`/`X`
    selecting hexadecimal, then at least one digit, then `;`. -/
def numRef : List Char → Option (Nat × List Char)
  | c :: rest =>
    if c == 'x' || c == 'X' then
      match rest with
      | d :: _ => if (hexDigit d).isSome then numRefAux hexDigit 16 rest 0 else none
      | [] => none
    else if (decDigit c).isSome then numRefAux decDigit 10 (c :: rest) 0
    else none
  | [] => none

/-- HTML character-reference decoding as the `innerHTML` parser performs it
    on text: the five predefined named references and semicolon-terminated
    numeric references.  Everything else (including the long named-entity
    list, whose values are outside the ASCII universe of this development,
    and the legacy semicolon-less forms) is left literal.  `fuel` bounds
    the scan; each step consumes at least one character. -/
def decodeEntitiesAux : Nat → List Char → List Char
  | 0, l => l
  | _ + 1, [] => []
  | fuel + 1, c :: rest =>
    if c == '&' then
      if startsWithL "amp;".data rest then '&' :: decodeEntitiesAux fuel (rest.drop 4)
      else if startsWithL "lt;".data rest then '<' :: decodeEntitiesAux fuel (rest.drop 3)
      else if startsWithL "gt;".data rest then '>' :: decodeEntitiesAux fuel (rest.drop 3)
      else if startsWithL "quot;".data rest then '"' :: decodeEntitiesAux fuel (rest.drop 5)
      else if startsWithL "apos;".data rest then '\'' :: decodeEntitiesAux fuel (rest.drop 5)
      else if rest.head? = some '#' then
        match numRef (rest.drop 1) with
        | some (code, rest2) => Char.ofNat code :: decodeEntitiesAux fuel rest2
        | none => c :: decodeEntitiesAux fuel rest
      else c :: decodeEntitiesAux fuel rest
    else c :: decodeEntitiesAux fuel rest

def decodeEntities (l : List Char) : List Char :=
  decodeEntitiesAux l.length l

/-- `cleanHtml` from the content script: parse the HTML (`innerHTML`, which
    decodes character references in text), remove `script`/`style`
    elements, take the text content, and `cleanText` it. -/
def cleanHtmlL (s : List Char) : List Char :=
  cleanTextL (decodeEntities (stripTagsAux false (removeScriptStyle s)))

def cleanHtml (s : String) : String :=
  String.mk (cleanHtmlL s.data)

/-- `String.prototype.lastIndexOf` for a single character (`-1` if absent). -/
def lastIdxOfAux (c : Char) : Nat → Int → List Char → Int
  | _, best, [] => best
  | i, best, x :: rest => lastIdxOfAux c (i + 1) (if x == c then (i : Int) else best) rest

def lastIdxOf (c : Char) (s : List Char) : Int :=
  lastIdxOfAux c 0 (-1) s

/-- First index of a character (`none` if absent). -/
def firstIdxOfAux (c : Char) : Nat → List Char → Option Nat
  | _, [] => none
  | i, x :: rest => if x == c then some i else firstIdxOfAux c (i + 1) rest

def firstIdxOf (c : Char) (s : List Char) : Option Nat :=
  firstIdxOfAux c 0 s

/-! ## Word-bounded regex scanning

`text.match(/\b(alt1|alt2|...)\bgi/)` is embedded as a left-to-right scan:
at each position the alternatives are tried in their listed order; the
first alternative that matches case-insensitively with a `\b` boundary on
both sides is taken, and scanning resumes after it (regex `lastIndex`
advancement).  A `\b` boundary holds between two positions exactly when
one side is a `\w` character and the other is not (a string edge counts
as a non-word side). -/

/-- Word-boundary test between an optional previous character and an
    optional next character. -/
def boundaryB (prev next : Option Char) : Bool :=
  (prev.elim false isWordChar) != (next.elim false isWordChar)

/-- Does alternative `kw` match at the current position (`s` is the rest of
    the text, `prev` the character just before it) with `\b` on both sides? -/
def wordBounded (kw : List Char) (prev : Option Char) (s : List Char) : Bool :=
  ciStartsWith kw s
    && boundaryB prev s.head?
    && boundaryB ((s.take kw.length).getLast?) ((s.drop kw.length).head?)

/-- First alternative (in listed order) matching at the current position;
    returns the matched text as it appears in the input. -/
def firstAlt (alts : List (List Char)) (prev : Option Char) (s : List Char) :
    Option (List Char) :=
  ((alts.filter (fun kw => !kw.isEmpty)).find? (fun kw => wordBounded kw prev s)).map
    (fun kw => s.take kw.length)

/-- Fuelled scan collecting all word-bounded matches of the alternation in
    text order.  `fuel` bounds the number of scan steps; each step consumes
    at least one input character, so `fuel = s.length` is exact. -/
def scanAlts (alts : List (List Char)) : Nat → Option Char → List Char → List (List Char)
  | 0, _, _ => []
  | _ + 1, _, [] => []
  | fuel + 1, prev, c :: rest =>
    match firstAlt alts prev (c :: rest) with
    | some m => m :: scanAlts alts fuel m.getLast? ((c :: rest).drop m.length)
    | none => scanAlts alts fuel (some c) rest

/-- `text.match(pattern)` for a word-bounded alternation with flags `gi`
    (the match list; `[]` stands for the `null` result). -/
def jsMatchAll (alts : List (List Char)) (s : List Char) : List (List Char) :=
  scanAlts alts s.length none s

/-- JavaScript `Set` insertion order de-duplication. -/
def dedupAux (seen : List String) : List String → List String
  | [] => []
  | x :: xs =>
    if seen.contains x then dedupAux seen xs
    else x :: dedupAux (x :: seen) xs

def dedup (l : List String) : List String :=
  dedupAux [] l

/-! ## `extractSkillsFromText` (llmDetector)

The seven skill regexes, with each alternative written out as a literal
(an optional group such as `React(?:\.js)?` becomes the two alternatives
`React.js`, `React` in greedy preference order). -/

def languageAlts : List String :=
  ["JavaScript", "TypeScript", "Python", "Java", "C++", "C#", "Go", "Golang",
   "Rust", "Ruby", "PHP", "Swift", "Kotlin", "Scala", "R"]

def frameworkAlts : List String :=
  ["React.js", "React", "Vue.js", "Vue", "Angular", "Node.js", "Node",
   "Express.js", "Express", "Django", "Flask", "FastAPI", "Spring", ".NET",
   "Next.js", "Nuxt.js"]

def databaseAlts : List String :=
  ["SQL", "PostgreSQL", "MySQL", "MongoDB", "Redis", "Elasticsearch",
   "DynamoDB", "Cassandra", "Oracle", "SQLite"]

def cloudAlts : List String :=
  ["AWS", "Azure", "GCP", "Google Cloud", "Kubernetes", "Docker", "Terraform",
   "CloudFormation", "Lambda", "EC2", "S3"]

def toolAlts : List String :=
  ["Git", "GitHub", "GitLab", "Jenkins", "CircleCI", "Travis", "Jira",
   "Confluence", "Slack", "Figma"]

def conceptAlts : List String :=
  ["REST", "GraphQL", "gRPC", "Microservices", "CI/CD", "DevOps", "Agile",
   "Scrum", "TDD", "BDD"]

def dataMlAlts : List String :=
  ["Machine Learning", "Deep Learning", "NLP", "Computer Vision",
   "TensorFlow", "PyTorch", "Pandas", "NumPy", "Spark", "Hadoop"]

def skillPatterns : List (List String) :=
  [languageAlts, frameworkAlts, databaseAlts, cloudAlts, toolAlts,
   conceptAlts, dataMlAlts]

/-- `extractSkillsFromText`: run each pattern over the text, add every
    matched string to a `Set` (first-insertion order, exact-case identity). -/
def extractSkillsFromText (text : String) : List String :=
  dedup (skillPatterns.foldl
    (fun acc pat => acc ++ (jsMatchAll (pat.map String.data) text.data).map String.mk)
    [])

/-! ## `extractJDSkills` (skillMatcher)

The requirement patterns `/required:?\s*([^.]+)/gi` (and the three
variants) are embedded with full backtracking semantics for the optional
colon and the greedy `\s*` before the greedy one-or-more `[^.]+` capture. -/

/-- Match `\s*([^.]+)` at the start of `r`, returning the capture and the
    number of characters consumed.  Greedy `\s*` takes the maximal space
    run; if the character after it is missing or a period, the engine
    backtracks one space so that `[^.]+` can still match that space. -/
def capAfterSpaces (r : List Char) : Option (List Char × Nat) :=
  let k := (r.takeWhile isJsSpace).length
  match (r.drop k).head? with
  | some c =>
    if c == '.' then
      if k == 0 then none
      else some ((r.drop (k - 1)).take 1, k)
    else
      let cap := (r.drop k).takeWhile (fun x => x != '.')
      some (cap, k + cap.length)
  | none =>
    if k == 0 then none
    else some ((r.drop (k - 1)).take 1, k)

/-- Match `:?\s*([^.]+)` at the start of `r0` (the text right after the
    keyword): the optional colon is preferred, and given up if the rest of
    the pattern cannot match after it. -/
def reqMatchAfterKw (r0 : List Char) : Option (List Char × Nat) :=
  if r0.head? == some ':' then
    match capAfterSpaces (r0.drop 1) with
    | some (cap, n) => some (cap, n + 1)
    | none => capAfterSpaces r0
  else capAfterSpaces r0

/-- Fuelled scan for all matches of `/kw:?\s*([^.]+)/gi`, collecting the
    capture groups in text order with `lastIndex` advancement. -/
def reqScan (kw : List Char) : Nat → List Char → List (List Char)
  | 0, _ => []
  | _ + 1, [] => []
  | fuel + 1, c :: rest =>
    if ciStartsWith kw (c :: rest) then
      match reqMatchAfterKw ((c :: rest).drop kw.length) with
      | some (cap, n) => cap :: reqScan kw fuel ((c :: rest).drop (kw.length + n))
      | none => reqScan kw fuel rest
    else reqScan kw fuel rest

/-- All capture groups of `/kw:?\s*([^.]+)/gi` over `text`. -/
def reqCaptures (kw : String) (text : String) : List String :=
  (reqScan kw.data text.data.length text.data).map String.mk

/-- Association-list model of a JavaScript `Map` (insertion order;
    `set` of an existing key updates in place). -/
def alGet (m : List (String × Nat)) (k : String) : Option Nat :=
  (m.find? (fun p => p.1 = k)).map (fun p => p.2)

def alSet (m : List (String × Nat)) (k : String) (v : Nat) : List (String × Nat) :=
  if m.any (fun p => p.1 = k) then
    m.map (fun p => if p.1 = k then (k, v) else p)
  else m ++ [(k, v)]

/-- `escapeRegex` makes the skill a literal in `new RegExp`; the embedding
    already treats keywords literally, so the count is a word-bounded
    single-alternative scan. -/
def countBounded (skill : String) (text : String) : Nat :=
  (jsMatchAll [skill.data] text.data).length

def requirementKeywords : List String :=
  ["required", "must have", "essential", "mandatory"]

/-- `extractJDSkills`: mention counts per lowercased skill
    (`matches?.length || 1`), then a `+3` boost for every occurrence of the
    skill inside a requirement-pattern capture. -/
def extractJDSkills (jdText : String) : List (String × Nat) :=
  let base := (extractSkillsFromText jdText).foldl
    (fun m s =>
      let key := toLowerS s
      let c := countBounded key jdText
      alSet m key (if c == 0 then 1 else c))
    []
  requirementKeywords.foldl
    (fun m kw =>
      (reqCaptures kw jdText).foldl
        (fun m cap =>
          (extractSkillsFromText cap).foldl
            (fun m s =>
              let key := toLowerS s
              alSet m key ((alGet m key).getD 0 + 3))
            m)
        m)
    base

/-! ## Core data model (`core/types.ts`)

Optional fields become `Option`; JavaScript truthiness on an optional
string (absent, or present but empty) is `truthy`. -/

def truthy (o : Option String) : Bool :=
  o.getD "" != ""

structure Experience where
  title : String
  company : String
  dates : String
  location : Option String := none
  technologies : Option (List String) := none
  bullets : List String
  intern_bullets : Option (List String) := none
deriving Repr, DecidableEq

structure Education where
  degree : String
  school : String
  year : String
  gpa : Option String := none
deriving Repr, DecidableEq

structure Project where
  name : String
  url : Option String := none
  description : Option String := none
  bullets : Option (List String) := none
deriving Repr, DecidableEq

structure MasterResume where
  name : String
  email : String
  phone : Option String := none
  location : Option String := none
  linkedin : Option String := none
  github : Option String := none
  portfolio : Option String := none
  summary : Option String := none
  experience : List Experience
  education : List Education
  skills : List String
  certifications : Option (List String) := none
  projects : Option (List Project) := none
deriving Repr, DecidableEq

/-! ## Skill Matcher (`features/matching/skillMatcher.ts`) -/

structure SkillMatchR where
  skill : String
  source : String
  confidence : String
deriving Repr, DecidableEq

structure SkillGap where
  skill : String
  priority : String
  mentions : Nat
  suggestion : Option String
deriving Repr, DecidableEq

structure MatchResult where
  overallScore : Nat
  matchedSkills : List SkillMatchR
  missingSkills : List SkillGap
  recommendations : List String
  summary : String
deriving Repr, DecidableEq

/-- JavaScript `Set` insertion. -/
def setAdd (s : List String) (x : String) : List String :=
  if s.contains x then s else s ++ [x]

/-- `extractResumeSkills`: the explicit skills field (the typed shape is a
    flat string list; the object-of-categories branch of the source cannot
    arise for values of this shape), then skills recognized in every
    experience bullet, then in every project description, all lowercased
    and set-deduplicated. -/
def extractResumeSkills (resume : MasterResume) : List String :=
  let s1 := resume.skills.foldl (fun acc sk => setAdd acc (toLowerS sk)) []
  let s2 := resume.experience.foldl
    (fun acc exp => exp.bullets.foldl
      (fun acc b => (extractSkillsFromText b).foldl (fun a s => setAdd a (toLowerS s)) acc)
      acc)
    s1
  (resume.projects.getD []).foldl
    (fun acc p =>
      match p.description with
      | some d =>
        if d == "" then acc
        else (extractSkillsFromText d).foldl (fun a s => setAdd a (toLowerS s)) acc
      | none => acc)
    s2

/-- The bidirectional substring skill match:
    `resumeSkills.has(skill) || some(rs => rs.includes(skill) || skill.includes(rs))`. -/
def hasSkillB (resumeSkills : List String) (skill : String) : Bool :=
  resumeSkills.contains skill ||
    resumeSkills.any (fun rs => includesL skill.data rs.data || includesL rs.data skill.data)

def acronyms : List String :=
  ["api", "aws", "gcp", "sql", "css", "html", "ci", "cd", "ai", "ml"]

/-- `skill.split(/[\s-]/)` (single-character separators, empty segments kept). -/
def splitWords (p : Char → Bool) : List Char → List (List Char)
  | [] => [[]]
  | c :: rest =>
    match splitWords p rest with
    | [] => [[]]
    | seg :: segs => if p c then [] :: seg :: segs else (c :: seg) :: segs

/-- `word.charAt(0).toUpperCase() + word.slice(1).toLowerCase()`. -/
def capWord : List Char → List Char
  | [] => []
  | c :: rest => c.toUpper :: rest.map Char.toLower

def capitalizeSkill (skill : String) : String :=
  if acronyms.contains (toLowerS skill) then toUpperS skill
  else
    String.intercalate " "
      ((splitWords (fun c => isJsSpace c || c == '-') skill.data).map
        (fun w => String.mk (capWord w)))

def relatedTable : List (String × List String) :=
  [("python", ["django", "flask", "fastapi"]),
   ("javascript", ["typescript", "node", "react", "vue", "angular"]),
   ("react", ["javascript", "typescript", "next.js", "redux"]),
   ("aws", ["cloud", "azure", "gcp", "docker", "kubernetes"]),
   ("kubernetes", ["docker", "aws", "gcp", "devops"]),
   ("postgresql", ["sql", "mysql", "database"]),
   ("ml", ["python", "data science", "tensorflow", "pytorch"])]

def getSuggestion (skill : String) (resumeSkills : List String) : Option String :=
  match (relatedTable.find? (fun p => p.1 == toLowerS skill)).map (fun p => p.2) with
  | some relatedSkills =>
    match relatedSkills.find?
        (fun r => resumeSkills.any (fun rs => includesL r.data rs.data)) with
    | some found =>
      some ("You have experience with " ++ found ++
        " - consider highlighting as transferable.")
    | none => none
  | none => none

def confidenceOf (mentions : Nat) : String :=
  if mentions ≥ 3 then "high" else if mentions ≥ 2 then "medium" else "low"

def priorityOf (mentions : Nat) : String :=
  if mentions ≥ 3 then "required" else if mentions ≥ 2 then "preferred"
  else "nice_to_have"

/-- The main loop of `calculateMatch` over the sorted skill list, producing
    (matchedSkills, missingSkills, totalWeight, matchedWeight) in iteration
    order.  (The source also counts `matchedCount`, which it never reads.) -/
def matchLoop (resumeSkills : List String) :
    List (String × Nat) → List SkillMatchR × List SkillGap × Nat × Nat
  | [] => ([], [], 0, 0)
  | (skill, mentions) :: rest =>
    let weight := min mentions 5
    let r := matchLoop resumeSkills rest
    if hasSkillB resumeSkills skill then
      ({ skill := capitalizeSkill skill, source := "resume",
         confidence := confidenceOf mentions } :: r.1,
       r.2.1, r.2.2.1 + weight, r.2.2.2 + weight)
    else
      (r.1,
       { skill := capitalizeSkill skill, priority := priorityOf mentions,
         mentions := mentions,
         suggestion := getSuggestion skill resumeSkills } :: r.2.1,
       r.2.2.1 + weight, r.2.2.2)

/-! The score expression `Math.round((matchedWeight / totalWeight) * 100)`
is computed in IEEE-754 binary64: the division and the multiplication are
each correctly rounded (round to nearest, ties to even), and `Math.round`
returns the integer nearest to the exact value of the resulting double,
ties toward `+∞`.  A double is carried as a dyadic pair `(n, e)` standing
for `n * 2^e`; all values arising here are far inside the normal range, so
overflow and subnormals do not arise. -/

/-- Round-half-even of `a / b` (`b > 0`): the correctly rounded integer
    significand. -/
def rne (a b : Nat) : Nat :=
  let q := a / b
  let r := a % b
  if 2 * r < b then q
  else if b < 2 * r then q + 1
  else if q % 2 = 0 then q else q + 1

/-- Smallest `k` with `b ≤ a * 2^k` (used when `a < b`), by doubling. -/
def upExp : Nat → Nat → Nat → Nat
  | 0, _, _ => 0
  | fuel + 1, a, b => if b ≤ a then 0 else upExp fuel (2 * a) b + 1

/-- Fuelled binary logarithm. -/
def log2fuel : Nat → Nat → Nat
  | 0, _ => 0
  | fuel + 1, n => if 2 ≤ n then log2fuel fuel (n / 2) + 1 else 0

def log2n (n : Nat) : Nat :=
  log2fuel n n

/-- `floor (log2 (a / b))` for `a, b ≥ 1`: the binary exponent of the
    quotient. -/
def flog2p (a b : Nat) : Int :=
  if b ≤ a then (log2n (a / b) : Int) else -(upExp b a b : Int)

/-- The binary64 double nearest to `a / b` (round half to even on the
    53-bit significand), as a dyadic significand-exponent pair. -/
def f64 (a b : Nat) : Nat × Int :=
  if a = 0 then (0, 0)
  else
    let E := flog2p a b
    if 0 ≤ 52 - E then (rne (a * 2 ^ (52 - E).toNat) b, E - 52)
    else (rne a (b * 2 ^ (E - 52).toNat), E - 52)

/-- Correctly rounded multiplication of a double by the exact double 100:
    the exact dyadic product, rounded back to 53 bits. -/
def mul100 (x : Nat × Int) : Nat × Int :=
  if 0 ≤ x.2 then f64 (100 * x.1 * 2 ^ x.2.toNat) 1
  else f64 (100 * x.1) (2 ^ (-x.2).toNat)

/-- `Math.round` on the exact value of a nonnegative double: the nearest
    integer, ties toward `+∞` (`floor (n * 2^e + 1/2)`). -/
def jsRoundF (x : Nat × Int) : Nat :=
  if 0 ≤ x.2 then x.1 * 2 ^ x.2.toNat
  else (2 * x.1 + 2 ^ (-x.2).toNat) / 2 ^ ((-x.2).toNat + 1)

/-- `Math.round((matchedWeight / totalWeight) * 100)` exactly as the
    program computes it: correctly rounded binary64 division, then
    correctly rounded multiplication by 100, then `Math.round`. -/
def roundPct (mw tw : Nat) : Nat :=
  jsRoundF (mul100 (f64 mw tw))

/-- Spec-side rounding: the exact rational `round(100 * mw / tw)`, half
    away from zero, as the claim's formula reads.  (Kept for comparison
    with the program's double-precision `roundPct`.) -/
def specRound (mw tw : Nat) : Nat :=
  (200 * mw + tw) / (2 * tw)

/-- Descending-by-mention-count comparison used to sort JD skills
    (`.sort((a, b) => b[1] - a[1])`, a stable sort). -/
def byMentionsDesc (a b : String × Nat) : Bool :=
  decide (b.2 ≤ a.2)

def calculateMatch (resume : MasterResume) (jdText : String) : MatchResult :=
  let resumeSkills := extractResumeSkills resume
  let sortedJDSkills := (extractJDSkills jdText).mergeSort byMentionsDesc
  let r := matchLoop resumeSkills sortedJDSkills
  let matchedSkills := r.1
  let missingSkills := r.2.1
  let totalWeight := r.2.2.1
  let matchedWeight := r.2.2.2
  let overallScore := if 0 < totalWeight then roundPct matchedWeight totalWeight else 0
  let requiredMissing := missingSkills.filter (fun s => s.priority == "required")
  let recs1 :=
    if requiredMissing.length > 0 then
      ["Critical gap: " ++
        String.intercalate ", " (((requiredMissing.map (fun s => s.skill))).take 3) ++
        " - mentioned frequently in JD."]
    else []
  let highMatches := matchedSkills.filter (fun s => s.confidence == "high")
  let recs2 :=
    if highMatches.length > 0 then
      ["Highlight your " ++
        String.intercalate ", " ((highMatches.take 3).map (fun s => s.skill)) ++
        " experience prominently."]
    else []
  let summary :=
    if overallScore ≥ 80 then
      "Excellent match! Your skills align very well with this role."
    else if overallScore ≥ 60 then
      "Good match. You have most required skills with some gaps to address."
    else if overallScore ≥ 40 then
      "Moderate match. Consider highlighting transferable skills and addressing key gaps."
    else
      "Lower match. This role may require significant skill development."
  { overallScore := overallScore,
    matchedSkills := matchedSkills,
    missingSkills := missingSkills.take 10,
    recommendations := recs1 ++ recs2,
    summary := summary }

/-! ## JSON values

Parsed JSON documents (the result of `JSON.parse` on a structured-data
script block).  Object fields are listed in document order with duplicate
keys already resolved by the parser (last occurrence wins), so lookup may
take the first hit. -/

inductive Json where
  | null
  | bool (b : Bool)
  | num (n : Int)
  | str (s : String)
  | arr (items : List Json)
  | obj (fields : List (String × Json))
deriving Repr, Inhabited

/-- JavaScript property access `j[k]` (`none` models `undefined`). -/
def jGet (j : Json) (k : String) : Option Json :=
  match j with
  | .obj fs => (fs.find? (fun p => p.1 == k)).map (fun p => p.2)
  | _ => none

/-- JavaScript truthiness of a JSON value. -/
def jsTruthy : Json → Bool
  | .null => false
  | .bool b => b
  | .num n => n != 0
  | .str s => s != ""
  | .arr _ => true
  | .obj _ => true

/-- JavaScript string conversion of a primitive JSON value (used where the
    source lets a non-string slip through a `||` chain into a string
    position; composite values stringify differently and do not occur in
    the inputs considered here). -/
def jsDisplay : Json → String
  | .str s => s
  | .num n => toString n
  | .bool b => if b then "true" else "false"
  | .null => "null"
  | .arr _ => ""
  | .obj _ => "[object Object]"

theorem sizeOf_jGet {j v : Json} {k : String} (h : jGet j k = some v) :
    sizeOf v < sizeOf j := by
  cases j with
  | obj fs =>
    simp only [jGet] at h
    cases hf : List.find? (fun p => p.1 == k) fs with
    | none => simp [hf] at h
    | some p =>
      simp only [hf, Option.map_some] at h
      have hm := List.sizeOf_lt_of_mem (List.mem_of_find?_eq_some hf)
      cases p with
      | mk a b =>
        cases h
        simp at hm ⊢
        omega
  | null => simp [jGet] at h
  | bool b => simp [jGet] at h
  | num n => simp [jGet] at h
  | str s => simp [jGet] at h
  | arr items => simp [jGet] at h

/-! ## Schema.org JobPosting detection -/

/-- `data["@type"] === "JobPosting"` (strict equality against a string). -/
def typeIsJobPosting (t : Option Json) : Bool :=
  match t with
  | some (.str s) => s == "JobPosting"
  | _ => false

/-- `Array.isArray(data["@type"]) && data["@type"].includes("JobPosting")`. -/
def typeArrHasJobPosting (t : Option Json) : Bool :=
  match t with
  | some (.arr ts) => ts.any (fun x => match x with | .str s => s == "JobPosting" | _ => false)
  | _ => false

mutual

/-- `findJobPosting`: direct `@type` check, `@type`-array check, recursive
    search through an `@graph` array, recursive search through a plain
    array, in that order. -/
def findJobPosting (j : Json) : Option Json :=
  if typeIsJobPosting (jGet j "@type") then some j
  else if typeArrHasJobPosting (jGet j "@type") then some j
  else
    let viaGraph :=
      match h : jGet j "@graph" with
      | some (.arr g) => findJobPostingList g
      | _ => none
    match viaGraph with
    | some r => some r
    | none =>
      match j with
      | .arr items => findJobPostingList items
      | _ => none
termination_by sizeOf j
decreasing_by
  all_goals first
    | (have hs := sizeOf_jGet h; simp at hs ⊢; omega)
    | (simp; try omega)

def findJobPostingList : List Json → Option Json
  | [] => none
  | x :: xs =>
    match findJobPosting x with
    | some r => some r
    | none => findJobPostingList xs
termination_by l => sizeOf l
decreasing_by
  all_goals (simp; try omega)

end

/-- `extractString`: a plain string, or the first truthy of
    `value["@value"] || value.value || value.name` on an object. -/
def extractStringJ (value : Option Json) : Option String :=
  match value with
  | some (.str s) => some s
  | some (.obj fs) =>
    match (([jGet (.obj fs) "@value", jGet (.obj fs) "value",
             jGet (.obj fs) "name"].filterMap id).find? jsTruthy) with
    | some (.str s) => some s
    | some v => some (jsDisplay v)
    | none => none
  | _ => none

/-- `extractCompanyName`: a string organization, else
    `org.name || org.legalName`. -/
def extractCompanyName (org : Option Json) : Option String :=
  match org with
  | none => none
  | some o =>
    if !jsTruthy o then none
    else
      match o with
      | .str s => some s
      | _ =>
        match (([jGet o "name", jGet o "legalName"].filterMap id).find? jsTruthy) with
        | some (.str s) => some s
        | some v => some (jsDisplay v)
        | none => none

mutual

/-- `extractLocation`: a string, an address object
    (`locality, region, country` joined by `", "`), an array of locations
    joined by `" | "`, or `location.name`. -/
def extractLocationJ : Option Json → Option String
  | none => none
  | some (.str s) => if s == "" then none else some s
  | some l =>
    if !jsTruthy l then none
    else
      match jGet l "address" with
      | some addr =>
        if jsTruthy addr then
          some (String.intercalate ", "
            ((["addressLocality", "addressRegion", "addressCountry"]).filterMap
              (fun k =>
                match jGet addr k with
                | some v => if jsTruthy v then some (jsDisplay v) else none
                | none => none)))
        else extractLocationTail l
      | none => extractLocationTail l
termination_by o => sizeOf o
decreasing_by
  all_goals (simp; try omega)

/-- The array / `.name` fallback tail of `extractLocation`. -/
def extractLocationTail : Json → Option String
  | .arr items =>
    some (String.intercalate " | "
      ((items.attach.map (fun x => extractLocationJ (some x.1))).filterMap
        (fun o => match o with
          | some s => if s != "" then some s else none
          | none => none)))
  | l =>
    match jGet l "name" with
    | some v => if v matches .null then none else some (jsDisplay v)
    | none => none
termination_by l => sizeOf l
decreasing_by
  all_goals (have hx := List.sizeOf_lt_of_mem x.2; simp at hx ⊢; omega)

end

/-- Content-script `SchemaJobPosting` shape. -/
structure SchemaJobPostingCS where
  title : Option String
  company : Option String
  description : String
  location : Option String
deriving Repr, DecidableEq

/-- Content-script `detectFromSchemaOrg` over the parsed `ld+json` script
    blocks (`none` entries are script blocks whose JSON failed to parse or
    that were empty; they are skipped). -/
def detectFromSchemaOrgJson : List (Option Json) → Option SchemaJobPostingCS
  | [] => none
  | none :: rest => detectFromSchemaOrgJson rest
  | some data :: rest =>
    match findJobPosting data with
    | some jobPosting =>
      some { title := extractStringJ (jGet jobPosting "title"),
             company := extractCompanyName (jGet jobPosting "hiringOrganization"),
             description := cleanHtml ((extractStringJ (jGet jobPosting "description")).getD ""),
             location := extractLocationJ (jGet jobPosting "jobLocation") }
    | none => detectFromSchemaOrgJson rest

/-- Companion to the script-block loop: the JobPosting node the loop finds. -/
def firstJobPosting : List (Option Json) → Option Json
  | [] => none
  | none :: rest => firstJobPosting rest
  | some data :: rest =>
    match findJobPosting data with
    | some jobPosting => some jobPosting
    | none => firstJobPosting rest

/-! ## `schemaOrgDetector.ts` (full `SchemaJobPosting` shape) -/

structure SalaryR where
  currency : Option String := none
  minValue : Option Int := none
  maxValue : Option Int := none
deriving Repr, DecidableEq

/-- `extractSalary`: tolerate a `MonetaryAmount` with a flat numeric
    `value` or a nested `minValue`/`maxValue` range, then direct
    `minValue`/`maxValue` with `Number()` coercion (numeric JSON values;
    numeric strings stringify to `NaN` cases that do not occur here). -/
def extractSalary (salary : Json) : Option SalaryR :=
  if !jsTruthy salary then none
  else
    let currency :=
      match jGet salary "currency" with
      | some v => if jsTruthy v then some (jsDisplay v) else none
      | none => none
    let fromValue : Option Int × Option Int :=
      match jGet salary "value" with
      | some v =>
        if jsTruthy v then
          match v with
          | .num n => (some n, some n)
          | .obj _ =>
            ((jGet v "minValue").bind (fun x => match x with | .num n => some n | _ => none),
             (jGet v "maxValue").bind (fun x => match x with | .num n => some n | _ => none))
          | _ => (none, none)
        else (none, none)
      | none => (none, none)
    let minV :=
      match jGet salary "minValue" with
      | some (.num n) => if n != 0 then some n else fromValue.1
      | _ => fromValue.1
    let maxV :=
      match jGet salary "maxValue" with
      | some (.num n) => if n != 0 then some n else fromValue.2
      | _ => fromValue.2
    if currency.isNone && minV.isNone && maxV.isNone then none
    else some { currency := currency, minValue := minV, maxValue := maxV }

/-- `extractTextArray`: a string becomes a singleton; an array keeps the
    truthy `extractString` results. -/
def extractTextArray (value : Option Json) : List String :=
  match value with
  | none => []
  | some v =>
    if !jsTruthy v then []
    else
      match v with
      | .str s => [s]
      | .arr items =>
        items.filterMap (fun x =>
          match extractStringJ (some x) with
          | some s => if s != "" then some s else none
          | none => none)
      | _ => []

/-- `extractExperience`: a string, or `monthsOfExperience` converted to
    `"<Math.round(months / 12)>+ years"`, or `exp.name`. -/
def extractExperienceJ (exp : Option Json) : Option String :=
  match exp with
  | none => none
  | some e =>
    if !jsTruthy e then none
    else
      match e with
      | .str s => some s
      | _ =>
        match jGet e "monthsOfExperience" with
        | some (.num m) =>
          if m != 0 then some (toString (((m + 6).toNat) / 12) ++ "+ years")
          else
            match jGet e "name" with
            | some v => if jsTruthy v then some (jsDisplay v) else none
            | none => none
        | _ =>
          match jGet e "name" with
          | some v => if jsTruthy v then some (jsDisplay v) else none
          | none => none

/-- `extractEducation`: a string, or `credentialCategory`, or `edu.name`. -/
def extractEducationJ (edu : Option Json) : Option String :=
  match edu with
  | none => none
  | some e =>
    if !jsTruthy e then none
    else
      match e with
      | .str s => some s
      | _ =>
        match jGet e "credentialCategory" with
        | some v =>
          if jsTruthy v then some (jsDisplay v)
          else
            match jGet e "name" with
            | some w => if jsTruthy w then some (jsDisplay w) else none
            | none => none
        | none =>
          match jGet e "name" with
          | some w => if jsTruthy w then some (jsDisplay w) else none
          | none => none

structure SchemaJobPostingFull where
  title : String
  company : String
  description : String
  location : Option String := none
  salary : Option SalaryR := none
  datePosted : Option String := none
  validThrough : Option String := none
  employmentType : Option Json := none
  requirements : Option (List String) := none
  responsibilities : Option (List String) := none
  skills : Option (List String) := none
  experienceRequired : Option String := none
  educationRequired : Option String := none
  remote : Option Bool := none
deriving Repr

/-- `parseJobPosting` of `schemaOrgDetector.ts`.  Note that `description`
    is the raw `extractString` result with `|| ""` and nothing else: no
    `cleanHtml`, no whitespace normalization. -/
def parseJobPosting (data : Json) : SchemaJobPostingFull :=
  { title := (extractStringJ (jGet data "title")).getD "",
    company := (extractCompanyName (jGet data "hiringOrganization")).getD "",
    description := (extractStringJ (jGet data "description")).getD "",
    location := extractLocationJ (jGet data "jobLocation"),
    salary :=
      match jGet data "baseSalary" with
      | some s => if jsTruthy s then extractSalary s else none
      | none => none,
    datePosted := extractStringJ (jGet data "datePosted"),
    validThrough := extractStringJ (jGet data "validThrough"),
    employmentType := jGet data "employmentType",
    requirements :=
      match jGet data "qualifications" with
      | some q => if jsTruthy q then some (extractTextArray (some q)) else none
      | none => none,
    responsibilities :=
      match jGet data "responsibilities" with
      | some q => if jsTruthy q then some (extractTextArray (some q)) else none
      | none => none,
    skills :=
      match jGet data "skills" with
      | some q => if jsTruthy q then some (extractTextArray (some q)) else none
      | none => none,
    experienceRequired := extractExperienceJ (jGet data "experienceRequirements"),
    educationRequired := extractEducationJ (jGet data "educationRequirements"),
    remote :=
      if (match jGet data "jobLocationType" with
          | some (.str s) => s == "TELECOMMUTE"
          | _ => false)
          || (match jGet data "applicantLocationRequirements" with
              | some v => jsTruthy v
              | none => false) then
        some true
      else none }

/-- `extractSchemaOrgJobPosting`: loop over the script blocks, parse the
    first JobPosting found. -/
def extractSchemaOrgJobPosting : List (Option Json) → Option SchemaJobPostingFull
  | [] => none
  | none :: rest => extractSchemaOrgJobPosting rest
  | some data :: rest =>
    match findJobPosting data with
    | some jp => some (parseJobPosting jp)
    | none => extractSchemaOrgJobPosting rest

/-! ## The page abstraction

The content script reads the host page through a fixed set of DOM
queries.  Those reads are abstracted into one record: the parsed
`ld+json` script blocks, the meta tag contents (`none` = tag absent),
the result of the CSS-selector description scan `detectFromSelectors`,
the results of the `detectJobTitle` / `detectCompany` selector
heuristics, and `document.title`.  The CSS-selector scans themselves
walk the live DOM through `querySelector` and are part of the page
accessor boundary. -/

structure Page where
  ldJsonScripts : List (Option Json)
  ogTitle : Option String := none
  ogDesc : Option String := none
  twTitle : Option String := none
  twDesc : Option String := none
  metaDesc : Option String := none
  selectorText : String := ""
  heuristicTitle : String := ""
  heuristicCompany : String := ""
  pageTitle : String := ""

/-- `a || b` for an optional string `a` (JS truthiness). -/
def orElseStr (a : Option String) (b : String) : String :=
  match a with
  | some s => if s != "" then s else b
  | none => b

/-- `detectFromMetaTags`: OpenGraph first, then Twitter Card, then the
    standard description meta, each only filling a still-empty field. -/
def detectFromMetaTags (p : Page) : String × String :=
  let t0 := (p.ogTitle).getD ""
  let d0 := (p.ogDesc).getD ""
  let t1 := if t0 == "" then (p.twTitle).getD "" else t0
  let d1 := if d0 == "" then (p.twDesc).getD "" else d0
  let d2 := if d1 == "" then (p.metaDesc).getD "" else d1
  (t1, d2)

/-! ### The page-title pattern
`/^(.+?)\s+(?:at|@|-|–|—|\|)\s+(.+?)(?:\s+[-|]|$)/i`, embedded with the
backtracking order of a regex engine: the lazy groups grow from the
shortest candidate, `\s+` is a maximal whitespace run (no separator
alternative begins with whitespace, so a shorter run can never help),
and `.` excludes newlines. -/

def wsRun (s : List Char) : Nat :=
  (s.takeWhile isJsSpace).length

def sepAlts : List (List Char) :=
  ["at".data, "@".data, "-".data, "–".data, "—".data, "|".data]

/-- The separator alternative matching at this position (the alternatives
    have pairwise distinct first characters, so at most one matches). -/
def trySep (s : List Char) : Option Nat :=
  (sepAlts.find? (fun sep => ciStartsWith sep s)).map List.length

/-- The trailing `(?:\s+[-|]|$)` group. -/
def tailOk (rest : List Char) : Bool :=
  rest.isEmpty ||
    (let k := wsRun rest
     decide (k ≥ 1) &&
       (match (rest.drop k).head? with
        | some c => c == '-' || c == '|'
        | none => false))

/-- Lazy growth of the second capture group `(.+?)` until the trailing
    group matches. -/
def g2Search : Nat → List Char → List Char → Option (List Char)
  | 0, _, _ => none
  | fuel + 1, accRev, rest =>
    match rest with
    | [] => none
    | c :: rest2 =>
      if c == '\n' then none
      else if tailOk rest2 then some (c :: accRev).reverse
      else g2Search fuel (c :: accRev) rest2

/-- Backtracking over the length of the second `\s+` (maximal run first,
    down to one character). -/
def sepTailAux (afterSep : List Char) : Nat → Option (List Char)
  | 0 => none
  | k + 1 =>
    match g2Search (afterSep.drop (k + 1)).length [] (afterSep.drop (k + 1)) with
    | some g2 => some g2
    | none => sepTailAux afterSep k

/-- Lazy growth of the first capture group from the anchored start. -/
def pageTitleScan : Nat → List Char → List Char → Option (String × String)
  | 0, _, _ => none
  | fuel + 1, g1Rev, rest =>
    match rest with
    | [] => none
    | c :: rest2 =>
      if c == '\n' then none
      else
        let g1Rev2 := c :: g1Rev
        let k1 := wsRun rest2
        let attempt : Option (String × String) :=
          if k1 ≥ 1 then
            match trySep (rest2.drop k1) with
            | some sl =>
              let afterSep := (rest2.drop k1).drop sl
              match sepTailAux afterSep (wsRun afterSep) with
              | some g2 => some (String.mk g1Rev2.reverse, String.mk g2)
              | none => none
            | none => none
          else none
        match attempt with
        | some r => some r
        | none => pageTitleScan fuel g1Rev2 rest2

/-- `pageTitle.match(/^(.+?)\s+(?:at|@|-|–|—|\|)\s+(.+?)(?:\s+[-|]|$)/i)`,
    returning the two capture groups. -/
def pageTitleMatch (pageTitle : String) : Option (String × String) :=
  pageTitleScan pageTitle.data.length [] pageTitle.data

/-- `detectJobInfo`: the selector heuristics, then the page-title pattern
    for whichever of the two fields is still blank. -/
def detectJobInfo (p : Page) : String × String :=
  let jobTitle := p.heuristicTitle
  let company := p.heuristicCompany
  if jobTitle == "" || company == "" then
    match pageTitleMatch p.pageTitle with
    | some (m1, m2) =>
      (if jobTitle == "" then trimS m1 else jobTitle,
       if company == "" then trimS m2 else company)
    | none => (jobTitle, company)
  else (jobTitle, company)

structure DetectionResult where
  jd : String
  jobTitle : String
  company : String
  method : String
deriving Repr, DecidableEq

/-- `detectJobDescriptionMultiStrategy`: Schema.org JSON-LD (accepted when
    the description is longer than 200 characters), then meta tags (same
    threshold), then the CSS-selector scan as final fallback. -/
def detectJobDescriptionMultiStrategy (p : Page) : DetectionResult :=
  let schemaOk : Option SchemaJobPostingCS :=
    match detectFromSchemaOrgJson p.ldJsonScripts with
    | some r => if r.description != "" && r.description.length > 200 then some r else none
    | none => none
  match schemaOk with
  | some schemaResult =>
    { jd := schemaResult.description,
      jobTitle := orElseStr schemaResult.title p.heuristicTitle,
      company := orElseStr schemaResult.company p.heuristicCompany,
      method := "schema_org" }
  | none =>
    let metaResult := detectFromMetaTags p
    if metaResult.2 != "" && metaResult.2.length > 200 then
      { jd := metaResult.2,
        jobTitle := orElseStr (some metaResult.1) p.heuristicTitle,
        company := p.heuristicCompany,
        method := "meta_tags" }
    else
      let jobInfo := detectJobInfo p
      { jd := p.selectorText,
        jobTitle := jobInfo.1,
        company := jobInfo.2,
        method := "css_selectors" }

/-! ## LLM-assisted extractor (`llmDetector.ts`) -/

/-- The fixed instruction prompt in front of the page content. -/
def JOB_EXTRACTION_PROMPT : String :=
  "You are a job description parser. Extract the following information from this job posting content.\n\nReturn ONLY valid JSON with this exact structure (no markdown, no code blocks):\n\x7b\n  \"title\": \"Job title\",\n  \"company\": \"Company name\",\n  \"description\": \"Brief summary of the role (2-3 sentences)\",\n  \"requirements\": [\"requirement 1\", \"requirement 2\"],\n  \"responsibilities\": [\"responsibility 1\", \"responsibility 2\"],\n  \"skills\": [\"skill 1\", \"skill 2\"],\n  \"location\": \"Location or Remote\",\n  \"salary\": \"Salary range if mentioned\",\n  \"experienceLevel\": \"Entry/Mid/Senior/Lead\",\n  \"employmentType\": \"Full-time/Part-time/Contract\"\n\x7d\n\nIf any field is not found, use an empty string for text fields or empty array for list fields.\n\nJob Posting Content:\n---\n"

/-- `str.replace(/\n+++/g, "\n\n")` with `+++` standing for the
    three-or-more repetition bound: runs of three or more newlines become
    exactly two; shorter runs are kept.  `run` counts the newlines already
    seen in the current run. -/
def collapseNl3Aux (run : Nat) : List Char → List Char
  | [] => []
  | c :: rest =>
    if c == '\n' then
      if run ≥ 2 then collapseNl3Aux (run + 1) rest
      else '\n' :: collapseNl3Aux (run + 1) rest
    else c :: collapseNl3Aux 0 rest

def collapseNl3 (s : List Char) : List Char :=
  collapseNl3Aux 0 s

/-- `preparePageContentForLLM`, with the page body text
    (`document.body.innerText`) passed explicitly: collapse whitespace,
    collapse blank-line runs, trim; then if the result exceeds `maxChars`,
    cut at `Math.max(lastIndexOf("."), lastIndexOf("\n"), maxChars - 500)`
    within the first `maxChars` characters and append an ellipsis. -/
def preparePageContentForLLM (bodyText : String) (maxChars : Nat := 8000) : String :=
  let cleaned := trimL (collapseNl3 (collapseWs bodyText.data))
  if cleaned.length > maxChars then
    let truncated := cleaned.take maxChars
    let lastPeriod := lastIdxOf '.' truncated
    let lastNewline := lastIdxOf '\n' truncated
    let breakPoint : Int := max (max lastPeriod lastNewline) ((maxChars : Int) - 500)
    String.mk (truncated.take (breakPoint + 1).toNat) ++ "..."
  else String.mk cleaned

/-- `buildExtractionPrompt`: the fixed prompt followed by
    `pageContent.slice(0, 8000)`. -/
def buildExtractionPrompt (pageContent : String) : String :=
  JOB_EXTRACTION_PROMPT ++ String.mk (pageContent.data.take 8000)

/-! ## Resume editor (`resumeEditor.ts`) -/

/-- The serializer reads a `link` property on each project; the `Project`
    type defines `url` and no `link`, so on every value of the typed shape
    the property access yields `undefined`. -/
def Project.link (_ : Project) : Option String :=
  none

/-- The per-experience lines of `masterResumeToText`. -/
def expLines (exp : Experience) : List String :=
  ["\n### " ++ exp.title ++ " at " ++ exp.company,
   exp.dates ++ (if truthy exp.location then " | " ++ exp.location.getD "" else "")]
  ++ exp.bullets.map (fun b => "- " ++ b)

/-- The per-project lines of `masterResumeToText` (a project without a
    description pushes `undefined`, which `Array.prototype.join` renders
    as an empty line). -/
def projLines (proj : Project) : List String :=
  ["\n### " ++ proj.name, proj.description.getD ""]
  ++ (match proj.link with
      | some l => ["Link: " ++ l]
      | none => [])

/-- The `lines` array built by `masterResumeToText`. -/
def masterResumeLines (resume : MasterResume) : List String :=
  ["# " ++ resume.name, "Email: " ++ resume.email]
  ++ (if truthy resume.phone then ["Phone: " ++ resume.phone.getD ""] else [])
  ++ (if truthy resume.location then ["Location: " ++ resume.location.getD ""] else [])
  ++ (if truthy resume.linkedin then ["LinkedIn: " ++ resume.linkedin.getD ""] else [])
  ++ (if truthy resume.github then ["GitHub: " ++ resume.github.getD ""] else [])
  ++ (if truthy resume.portfolio then ["Portfolio: " ++ resume.portfolio.getD ""] else [])
  ++ (if truthy resume.summary then ["", "## Summary", resume.summary.getD ""] else [])
  ++ (if resume.experience.length > 0 then
        ["", "## Experience"] ++ (resume.experience.map expLines).flatten
      else [])
  ++ (if resume.education.length > 0 then
        ["", "## Education"] ++ resume.education.map (fun edu =>
          "- " ++ edu.degree ++ " - " ++ edu.school ++ " (" ++ edu.year ++ ")")
      else [])
  ++ (if resume.skills.length > 0 then
        ["", "## Skills", String.intercalate ", " resume.skills]
      else [])
  ++ (match resume.certifications with
      | some certs =>
        if certs.length > 0 then ["", "## Certifications"] ++ certs.map (fun c => "- " ++ c)
        else []
      | none => [])
  ++ (match resume.projects with
      | some projs =>
        if projs.length > 0 then ["", "## Projects"] ++ (projs.map projLines).flatten
        else []
      | none => [])

/-- `masterResumeToText`: the lines joined by newlines. -/
def masterResumeToText (resume : MasterResume) : String :=
  String.intercalate "\n" (masterResumeLines resume)

/-! ### Tolerant JSON parsing (`parseJsonResponse`)

`JSON.parse` is the host runtime builtin and is passed in as a function
`String → Option Json` (`none` models a thrown `SyntaxError`). -/

/-- First index of a (case-sensitive) substring. -/
def idxOfSub (needle : List Char) : List Char → Option Nat
  | [] => if needle.isEmpty then some 0 else none
  | c :: rest =>
    if startsWithL needle (c :: rest) then some 0
    else (idxOfSub needle rest).map (fun i => i + 1)

/-- The fenced-block regex: find the first pair of triple-backtick fences;
    inside, an optional literal `json` tag and leading whitespace are
    dropped and the lazy capture runs to the closing fence.  If an opening
    fence has no closing fence the engine retries from the next position. -/
def fencedScan : Nat → List Char → Option (List Char)
  | 0, _ => none
  | _ + 1, [] => none
  | fuel + 1, c :: rest =>
    if startsWithL "```".data (c :: rest) then
      let body0 := (c :: rest).drop 3
      let body1 := if startsWithL "json".data body0 then body0.drop 4 else body0
      let body2 := body1.dropWhile isJsSpace
      match idxOfSub "```".data body2 with
      | some k => some (body2.take k)
      | none => fencedScan fuel rest
    else fencedScan fuel rest

def fencedBlock (s : String) : Option String :=
  (fencedScan s.data.length s.data).map String.mk

/-- The brace-substring regex: greedy, so from the first opening brace to
    the last closing brace (no match if no closing brace follows the first
    opening one). -/
def braceMatch (s : String) : Option String :=
  match firstIdxOf '{' s.data with
  | some i =>
    let j := lastIdxOf '}' s.data
    if j ≥ (i : Int) + 1 then
      some (String.mk ((s.data.drop i).take ((j - (i : Int)).toNat + 1)))
    else none
  | none => none

/-- `parseJsonResponse`: direct parse; in the catch, a fenced block (whose
    inner parse failure propagates as the thrown error), else a
    brace-delimited substring (same), else the explicit parse error. -/
def parseJsonResponse (jsonParse : String → Option Json) (content : String) :
    Except String Json :=
  match jsonParse content with
  | some j => Except.ok j
  | none =>
    match fencedBlock content with
    | some inner =>
      match jsonParse inner with
      | some j => Except.ok j
      | none => Except.error "SyntaxError: JSON.parse"
    | none =>
      match braceMatch content with
      | some sub =>
        match jsonParse sub with
        | some j => Except.ok j
        | none => Except.error "SyntaxError: JSON.parse"
      | none => Except.error "Failed to parse JD analysis JSON"

/-- The LLM provider call contract:
    `generate(prompt, options)` with the options the editor passes. -/
structure GenOptions where
  systemPrompt : String
  temperature : Option ℚ := none
  forceJson : Option Bool := none

/-! The `PROMPTS` module (`models/prompts`, bundled alongside
`models/providers/types.ts`): the `ats_analysis` and `resume_rewrite`
system prompts and user-prompt builders used by the two passes.  (The
module also carries a `cover_letter` prompt pair, which the resume
pipeline never reads.) -/

/-- `PROMPTS.ats_analysis.system`. -/
def PROMPTS_ats_analysis_system : String :=
  "You are a strict job-description parser for ATS optimization.\nYour task is to mechanically extract information that is EXPLICITLY stated in the job description.\n\nIMPORTANT BEHAVIOR RULES:\n- Do NOT infer or assume requirements that are not written\n- Do NOT rephrase unless necessary for clarity\n- Prefer exact phrases from the job description\n- If something is not clearly mentioned, return an empty list or null\n- Be conservative rather than exhaustive\n\nOUTPUT RULES:\n- Respond with VALID JSON ONLY\n- No explanations, no markdown, no comments\n- Arrays must not contain duplicates\n- Use lowercase for all extracted keywords unless case is meaningful (e.g., AWS, SQL)"

/-- `PROMPTS.ats_analysis.user` (a template literal over the job
    description). -/
def PROMPTS_ats_analysis_user (jobDescription : String) : String :=
  "Parse the following job description and extract structured ATS-relevant data.\n\nJOB DESCRIPTION:\n" ++
    jobDescription ++
    "\n\nReturn EXACTLY this JSON structure:\n\x7b\n  \"hard_skills\": [\"explicitly mentioned technical skills only\"],\n  \"soft_skills\": [\"explicitly mentioned soft skills only\"],\n  \"tools_technologies\": [\"named tools, frameworks, platforms, or languages\"],\n  \"role_expectations\": [\"explicit responsibilities or expectations\"],\n  \"seniority_indicators\": [\"words or phrases indicating seniority level\"],\n  \"keyword_priorities\": \x7b\n    \"must_have\": [\"skills or terms clearly marked as required or mandatory\"],\n    \"nice_to_have\": [\"skills or terms clearly marked as preferred or optional\"],\n    \"industry_terms\": [\"domain-specific terminology explicitly mentioned\"]\n  \x7d,\n  \"years_experience\": \"number or range if explicitly stated, otherwise null\",\n  \"education_requirements\": [\"explicit degree or education requirements\"]\n\x7d"

/-- `PROMPTS.resume_rewrite.system`. -/
def PROMPTS_resume_rewrite_system : String :=
  "You are a deterministic resume rewriter for ATS optimization.\nYour job is to rewrite the resume conservatively for a specific role while preserving factual accuracy.\n\nHARD CONSTRAINTS (ABSOLUTE):\n1. Use ONLY information explicitly present in the master resume\n2. Do NOT infer responsibilities, tools, metrics, or impact\n3. Do NOT add years, numbers, or achievements unless already stated\n4. Do NOT change employment dates, ordering, or chronology\n5. Do NOT add new sections that do not exist in the source\n6. Do NOT add company-specific claims unless already present\n7. Do NOT mention ATS, optimization, or keywords in the output\n8. PRESERVE ALL bullet points - do NOT truncate or reduce content\n9. PRESERVE project descriptions and links exactly as provided\n10. PRESERVE employment subsections (Full-Time vs Intern) if present\n\nATS OPTIMIZATION RULES:\n- Prefer exact keyword phrases from the JD analysis when truthfully applicable\n- Keywords must be embedded naturally inside existing bullet points\n- Do NOT create standalone keyword lists solely to increase density\n- Skills should be reordered or grouped ONLY if they already exist\n- Avoid synonyms if the exact JD phrase is present in the resume\n\nWRITING RULES:\n- Bullet points must follow: Action → Skill → Outcome\n- Use plain text only (no tables, columns, icons, or formatting tricks)\n- Keep language factual and neutral\n- Avoid adjectives unless present in the original resume\n- Preserve original section headers unless reordering improves relevance\n\nDETERMINISM RULE:\n- Given the same master resume and JD analysis, output must be identical\n- Avoid stylistic variation or creative phrasing\n\nOUTPUT RULES:\n- Return ONLY the rewritten resume text\n- No explanations, no commentary, no metadata\n- INCLUDE ALL projects with their full descriptions"

/-- `PROMPTS.resume_rewrite.user` (a template literal over the flattened
    resume, the stringified analysis, the job title and the company). -/
def PROMPTS_resume_rewrite_user (masterResume jdAnalysis jobTitle company : String) :
    String :=
  "MASTER RESUME (single source of truth):\n" ++ masterResume ++
    "\n\nJOB DESCRIPTION ANALYSIS (use keywords ONLY where truthful):\n" ++ jdAnalysis ++
    "\n\nTARGET JOB TITLE: " ++ jobTitle ++
    "\nCOMPANY: " ++ company ++
    "\n\nRewrite the resume for this role following all constraints exactly. Preserve ALL bullet points and project descriptions."

/-- Pass 1 `analyzeJD`: one LLM call on the `ats_analysis` prompts at
    temperature 0.1 with JSON mode forced, parsed by `parseJsonResponse`.
    The provider and `JSON.parse` are external collaborators passed as
    functions; a provider failure is an `Except.error`. -/
def analyzeJD (llm : String → GenOptions → Except String String)
    (jsonParse : String → Option Json) (jobDescription : String) :
    Except String Json :=
  (llm (PROMPTS_ats_analysis_user jobDescription)
      { systemPrompt := PROMPTS_ats_analysis_system, temperature := some (1 / 10),
        forceJson := some true }).bind
    (fun content => parseJsonResponse jsonParse content)

/-- Pass 2 `rewriteResume`: one LLM call on the `resume_rewrite` prompts at
    temperature 0.2 over the flattened resume, the stringified analysis
    (`JSON.stringify(jdAnalysis, null, 2)`), job title and company; the
    response content is trimmed.  `stringify` is the `JSON.stringify`
    builtin with those formatting arguments. -/
def rewriteResume (llm : String → GenOptions → Except String String)
    (stringify : Json → String) (masterResume : MasterResume) (jdAnalysis : Json)
    (jobTitle company : String) : Except String String :=
  (llm (PROMPTS_resume_rewrite_user (masterResumeToText masterResume)
        (stringify jdAnalysis) jobTitle company)
      { systemPrompt := PROMPTS_resume_rewrite_system, temperature := some (2 / 10) }).map
    trimS

/-- `optimize`: Pass 1, then Pass 2 on its output, then both results. -/
def optimize (llm : String → GenOptions → Except String String)
    (jsonParse : String → Option Json) (stringify : Json → String)
    (masterResume : MasterResume) (jobDescription jobTitle company : String) :
    Except String (String × Json) := do
  let jdAnalysis ← analyzeJD llm jsonParse jobDescription
  let resume ← rewriteResume llm stringify masterResume jdAnalysis jobTitle company
  return (resume, jdAnalysis)

/-! ## Form-Fill Engine (content script `fillForm` / `fillField`)

A form field is the record of attributes the engine reads from an
`input`/`textarea` element; the associated label text is resolved
through the DOM and carried as a field of the record.  The native
setter invocation and the `input`/`change`/`keyup`/`blur` events exist
for host-framework compatibility and have no effect on the value
itself; the settle delay is timing only.  Neither is modelled. -/

structure FormField where
  tag : String
  elType : String
  name : String := ""
  fieldId : String := ""
  placeholder : String := ""
  className : String := ""
  ariaLabel : Option String := none
  dataTestid : Option String := none
  labelText : String := ""
  value : String := ""
deriving Repr, DecidableEq

structure FillData where
  firstName : Option String := none
  lastName : Option String := none
  email : Option String := none
  phone : Option String := none
  linkedin : Option String := none
  github : Option String := none
  portfolio : Option String := none
  coverLetter : Option String := none
  resumeText : Option String := none
deriving Repr, DecidableEq

/-- The `fieldMatchers` table, in `Object.entries` order. -/
def fieldMatchers : List ((FillData → Option String) × List String) :=
  [(fun d => d.firstName,
    ["first_name", "firstname", "fname", "first-name", "given", "first name",
     "givenname"]),
   (fun d => d.lastName,
    ["last_name", "lastname", "lname", "last-name", "surname", "family",
     "last name", "familyname"]),
   (fun d => d.email, ["email", "e-mail", "emailaddress", "e_mail", "mail"]),
   (fun d => d.phone,
    ["phone", "telephone", "tel", "mobile", "cell", "phonenumber",
     "phone number"]),
   (fun d => d.linkedin, ["linkedin", "linked-in", "linked_in", "linkedinurl"]),
   (fun d => d.github, ["github", "git-hub", "githuburl"]),
   (fun d => d.portfolio,
    ["portfolio", "website", "url", "personal", "personalwebsite",
     "personalurl", "web"]),
   (fun d => d.coverLetter,
    ["cover", "letter", "coverletter", "cover_letter", "cover letter",
     "motivation"])]

/-- The identifier string built from the element attributes
    (`filter(Boolean).join(" ")` then lowercased) plus the label text. -/
def fullIdentifier (el : FormField) : String :=
  toLowerS (String.intercalate " "
    (([el.name, el.fieldId, el.placeholder, el.className,
       el.ariaLabel.getD "", el.dataTestid.getD ""]).filter
      (fun s => s != "")))
  ++ " " ++ toLowerS el.labelText

/-- Input types the loop skips. -/
def skippedType (t : String) : Bool :=
  t == "hidden" || t == "submit" || t == "file" || t == "checkbox" || t == "radio"

/-- `fillField`: a field whose current value has non-whitespace content is
    left untouched; otherwise the value is written. -/
def fillField (el : FormField) (value : String) : FormField :=
  if el.value != "" && trimS el.value != "" then el
  else { el with value := value }

/-- The first matcher with a truthy data value one of whose patterns occurs
    in the identifier. -/
def matchField (data : FillData) (el : FormField) : Option String :=
  (fieldMatchers.findSome? (fun m =>
    match m.1 data with
    | some v =>
      if v == "" then none
      else if m.2.any (fun pat => includesL pat.data (fullIdentifier el).data) then
        some v
      else none
    | none => none))

/-- `fillForm`: walk the fields; for each non-skipped field with a matching
    pattern and an available value, call `fillField` and increment the
    count (the count records fill attempts; `fillField` itself may skip). -/
def fillForm (data : FillData) : List FormField → Nat × List FormField
  | [] => (0, [])
  | el :: rest =>
    let r := fillForm data rest
    if skippedType el.elType then (r.1, el :: r.2)
    else
      match matchField data el with
      | some v => (r.1 + 1, fillField el v :: r.2)
      | none => (r.1, el :: r.2)

/-! # Theorems -/

/-! ## Claim C10: the resume serializer -/

/-- Spec-side transformer: forget the fields the claim says the serializer
    never reads (`intern_bullets` on experiences, `url` on projects). -/
def eraseHidden (r : MasterResume) : MasterResume :=
  { r with
    experience := r.experience.map (fun e => { e with intern_bullets := none }),
    projects := r.projects.map (fun ps => ps.map (fun p => { p with url := none })) }

theorem map_expLines_erase (l : List Experience) :
    List.map expLines (List.map (fun e => { e with intern_bullets := none }) l)
      = List.map expLines l := by
  induction l with
  | nil => rfl
  | cons e t ih =>
    simp only [List.map_cons, ih]
    rfl

theorem map_projLines_erase (l : List Project) :
    List.map projLines (List.map (fun p => { p with url := none }) l)
      = List.map projLines l := by
  induction l with
  | nil => rfl
  | cons p t ih =>
    simp only [List.map_cons, ih]
    rfl

/-- Claim C10: for every MasterResume, the flattened plain-text form
    produced by `masterResumeToText` contains every element of every
    experience's `bullets` as a `"- "` line, and it never depends on any
    experience's `intern_bullets` or on any project's typed `url` field
    (the serializer reads a `link` property the `Project` type does not
    define), so intern bullet blocks and project links are absent from the
    Pass 2 rewrite input. -/
theorem claim_C10 (resume : MasterResume) :
    (∀ exp ∈ resume.experience, ∀ b ∈ exp.bullets,
        ("- " ++ b) ∈ masterResumeLines resume) ∧
    masterResumeToText (eraseHidden resume) = masterResumeToText resume := by
  constructor
  · intro exp hexp b hb
    have hlen : resume.experience.length > 0 :=
      List.length_pos.mpr (List.ne_nil_of_mem hexp)
    have h1 : ("- " ++ b) ∈ expLines exp := by
      simp only [expLines, List.mem_append, List.mem_cons, List.mem_map]
      right
      exact ⟨b, hb, rfl⟩
    have h2 : ("- " ++ b) ∈ (resume.experience.map expLines).flatten :=
      List.mem_flatten.mpr ⟨expLines exp, List.mem_map_of_mem _ hexp, h1⟩
    simp only [masterResumeLines, List.mem_append, hlen, if_pos]
    tauto
  · unfold masterResumeToText
    congr 1
    unfold masterResumeLines eraseHidden
    cases resume.projects
    all_goals
      simp only [List.length_map, map_expLines_erase, map_projLines_erase,
        Option.map_none', Option.map_some']
    all_goals try rfl

/-- Witness for C10 at a concrete resume. -/
theorem claim_C10_witness :
    ("- Built it" ∈ masterResumeLines
      { name := "Jane", email := "j@x.y",
        experience := [{ title := "Dev", company := "Acme", dates := "2020",
                         bullets := ["Built it"],
                         intern_bullets := some ["Interned"] }],
        education := [], skills := [] }) ∧
    masterResumeToText (eraseHidden
      { name := "Jane", email := "j@x.y",
        experience := [{ title := "Dev", company := "Acme", dates := "2020",
                         bullets := ["Built it"],
                         intern_bullets := some ["Interned"] }],
        education := [], skills := [] }) =
    masterResumeToText
      { name := "Jane", email := "j@x.y",
        experience := [{ title := "Dev", company := "Acme", dates := "2020",
                         bullets := ["Built it"],
                         intern_bullets := some ["Interned"] }],
        education := [], skills := [] } := by
  exact ⟨(claim_C10 _).1
      { title := "Dev", company := "Acme", dates := "2020",
        bullets := ["Built it"], intern_bullets := some ["Interned"] }
      (by simp) "Built it" (by simp),
    (claim_C10 _).2⟩

/-! ## Claim C3: tolerant JSON parsing and the two-pass pipeline -/

/-- A model of `JSON.parse` for the C3 counterexample: it accepts exactly
    the object text `\x7b\x7d` and throws on everything else. -/
def cexJsonParse : String → Option Json :=
  fun s => if s = "\x7b\x7d" then some (Json.obj []) else none

/-- The C3 counterexample response: the direct parse fails, a fenced block
    is present but garbled, and a valid brace-delimited object follows. -/
def cexContent : String :=
  "```json bad``` \x7b\x7d"

/-- Claim C3 counterexample: on a response whose fenced code block fails
    to parse while a valid brace-delimited object exists, the parser
    throws instead of trying the third strategy — so the parse is not the
    three-tier fallback the claim describes. -/
theorem claim_C3_counterexample :
    parseJsonResponse cexJsonParse cexContent = Except.error "SyntaxError: JSON.parse" ∧
    braceMatch cexContent = some "\x7b\x7d" ∧
    cexJsonParse "\x7b\x7d" = some (Json.obj []) :=
  ⟨rfl, rfl, rfl⟩

/-- Claim C3 (amended): `parseJsonResponse` tries the direct parse first;
    in the catch it extracts a fenced code block, and only when no fenced
    block is present does it try the first brace-delimited substring — a
    fenced block whose content fails to parse aborts with the propagated
    parse error immediately.  When every strategy fails the parse throws
    rather than returning a best-effort result.  `optimize` runs Pass 1
    strictly before Pass 2 and succeeds exactly when both passes succeed,
    returning the rewritten resume together with the analysis; any failure
    in either pass propagates and no partial resume is returned. -/
theorem claim_C3_amended
    (jsonParse : String → Option Json) (content : String)
    (llm : String → GenOptions → Except String String)
    (stringify : Json → String) (resume : MasterResume) (jd title company : String) :
    (jsonParse content = none →
      (∀ m, fencedBlock content = some m → jsonParse m = none) →
      (∀ m, braceMatch content = some m → jsonParse m = none) →
      ∃ e, parseJsonResponse jsonParse content = Except.error e) ∧
    (∀ j, jsonParse content = some j →
      parseJsonResponse jsonParse content = Except.ok j) ∧
    (jsonParse content = none → ∀ m, fencedBlock content = some m →
      parseJsonResponse jsonParse content =
        (match jsonParse m with
         | some j => Except.ok j
         | none => Except.error "SyntaxError: JSON.parse")) ∧
    (∀ r a,
      optimize llm jsonParse stringify resume jd title company = Except.ok (r, a) ↔
        (analyzeJD llm jsonParse jd = Except.ok a ∧
         rewriteResume llm stringify resume a title company = Except.ok r)) ∧
    (∀ e, analyzeJD llm jsonParse jd = Except.error e →
      optimize llm jsonParse stringify resume jd title company = Except.error e) := by
  refine ⟨?_, ?_, ?_, ?_, ?_⟩
  · intro h1 h2 h3
    unfold parseJsonResponse
    rw [h1]
    cases hf : fencedBlock content with
    | some m =>
      simp only [h2 m hf]
      exact ⟨_, rfl⟩
    | none =>
      cases hb : braceMatch content with
      | some m =>
        simp only [h3 m hb]
        exact ⟨_, rfl⟩
      | none => exact ⟨_, rfl⟩
  · intro j hj
    unfold parseJsonResponse
    rw [hj]
  · intro h1 m hf
    unfold parseJsonResponse
    rw [h1, hf]
  · intro r a
    constructor
    · intro hopt
      have hopt2 : (analyzeJD llm jsonParse jd).bind
          (fun a0 => (rewriteResume llm stringify resume a0 title company).bind
            (fun r0 => Except.ok (r0, a0))) = Except.ok (r, a) := hopt
      cases ha : analyzeJD llm jsonParse jd with
      | error e =>
        rw [ha] at hopt2
        simp only [Except.bind] at hopt2
        exact Except.noConfusion hopt2
      | ok a2 =>
        rw [ha] at hopt2
        simp only [Except.bind] at hopt2
        cases hr : rewriteResume llm stringify resume a2 title company with
        | error e =>
          rw [hr] at hopt2
          simp only [Except.bind] at hopt2
          exact Except.noConfusion hopt2
        | ok r2 =>
          rw [hr] at hopt2
          simp only [Except.bind, Except.ok.injEq, Prod.mk.injEq] at hopt2
          obtain ⟨h1, h2⟩ := hopt2
          subst h1; subst h2
          exact ⟨rfl, hr⟩
    · intro hboth
      obtain ⟨ha, hr⟩ := hboth
      show (analyzeJD llm jsonParse jd).bind
          (fun a0 => (rewriteResume llm stringify resume a0 title company).bind
            (fun r0 => Except.ok (r0, a0))) = Except.ok (r, a)
      rw [ha]
      simp only [Except.bind]
      rw [hr]
  · intro e he
    show (analyzeJD llm jsonParse jd).bind
        (fun a0 => (rewriteResume llm stringify resume a0 title company).bind
          (fun r0 => Except.ok (r0, a0))) = Except.error e
    rw [he]
    rfl

def wResume : MasterResume :=
  { name := "A", email := "e", experience := [], education := [], skills := [] }

/-- Witness for the amended C3: a response none of whose strategies parse
    makes the parser throw, and a Pass 1 provider failure propagates out of
    `optimize` unchanged. -/
theorem claim_C3_amended_witness :
    (∃ e, parseJsonResponse (fun _ => none) "x" = Except.error e) ∧
    optimize (fun _ _ => Except.error "boom") (fun _ => none) (fun _ => "")
        wResume "jd" "t" "c" = Except.error "boom" :=
  ⟨(claim_C3_amended (fun _ => none) "x" (fun _ _ => Except.error "boom")
      (fun _ => "") wResume "jd" "t" "c").1 rfl
      (fun m h => nomatch h) (fun m h => nomatch h),
   (claim_C3_amended (fun _ => none) "x" (fun _ _ => Except.error "boom")
      (fun _ => "") wResume "jd" "t" "c").2.2.2.2 "boom" rfl⟩

/-! ## Claim C9: the Form-Fill Engine -/

/-- Claim C9 counterexample: an email input pre-filled with non-whitespace
    content is matched, left unchanged by `fillField`, and yet counted:
    `fillForm` returns 1 although 0 fields were actually filled.  This
    refutes "the number fillForm returns equals the count of fields
    actually filled". -/
theorem claim_C9_counterexample :
    (fillForm { email := some "a@b.com" }
        [{ tag := "input", elType := "text", fieldId := "email",
           value := "x@y.com" }]).1 = 1 ∧
    (fillForm { email := some "a@b.com" }
        [{ tag := "input", elType := "text", fieldId := "email",
           value := "x@y.com" }]).2 =
      [{ tag := "input", elType := "text", fieldId := "email",
         value := "x@y.com" }] := by
  exact ⟨rfl, rfl⟩

/-- Claim C9 (amended): the engine writes a value only into fields whose
    current value is empty or whitespace-only, so a field with pre-existing
    non-whitespace content keeps its value unchanged; the number `fillForm`
    returns equals the count of non-skipped fields for which a matcher with
    an available value fired (fill attempts — this may exceed the number of
    fields whose value actually changed); zero matches return 0 without
    throwing. -/
theorem claim_C9_amended (data : FillData) (fields : List FormField) :
    ((fillForm data fields).2.length = fields.length) ∧
    (∀ pr ∈ (fillForm data fields).2.zip fields,
        trimS pr.2.value ≠ "" → pr.1.value = pr.2.value) ∧
    ((fillForm data fields).1 =
      (fields.filter
        (fun f => !skippedType f.elType && (matchField data f).isSome)).length) ∧
    ((∀ f ∈ fields, skippedType f.elType ∨ matchField data f = none) →
      (fillForm data fields).1 = 0) := by
  induction fields with
  | nil => exact ⟨rfl, by simp [fillForm], rfl, fun _ => rfl⟩
  | cons el rest ih =>
    obtain ⟨ih1, ih2, ih3, ih4⟩ := ih
    cases hskip : skippedType el.elType with
    | true =>
      have hres : fillForm data (el :: rest)
          = ((fillForm data rest).1, el :: (fillForm data rest).2) := by
        simp [fillForm, hskip]
      refine ⟨?_, ?_, ?_, ?_⟩
      · rw [hres]; simpa using ih1
      · intro pr hpr htrim
        rw [hres, List.zip_cons_cons] at hpr
        rcases List.mem_cons.mp hpr with h | h
        · subst h; rfl
        · exact ih2 pr h htrim
      · rw [hres]; simpa [List.filter_cons, hskip] using ih3
      · intro hall
        rw [hres]
        exact ih4 (fun f hf => hall f (List.mem_cons_of_mem _ hf))
    | false =>
      cases hm : matchField data el with
      | some v =>
        have hres : fillForm data (el :: rest)
            = ((fillForm data rest).1 + 1, fillField el v :: (fillForm data rest).2) := by
          simp [fillForm, hskip, hm]
        refine ⟨?_, ?_, ?_, ?_⟩
        · rw [hres]; simpa using ih1
        · intro pr hpr htrim
          rw [hres, List.zip_cons_cons] at hpr
          rcases List.mem_cons.mp hpr with h | h
          · subst h
            have hv : el.value ≠ "" := fun he => htrim (by simp [he, trimS, trimL])
            have hcond : (el.value != "" && trimS el.value != "") = true := by
              simp only [Bool.and_eq_true, bne_iff_ne, ne_eq]
              exact ⟨hv, htrim⟩
            simp [fillField, hcond]
          · exact ih2 pr h htrim
        · rw [hres]; simpa [List.filter_cons, hskip, hm] using ih3
        · intro hall
          rcases hall el (by simp) with h | h
          · rw [hskip] at h; cases h
          · rw [hm] at h; cases h
      | none =>
        have hres : fillForm data (el :: rest)
            = ((fillForm data rest).1, el :: (fillForm data rest).2) := by
          simp [fillForm, hskip, hm]
        refine ⟨?_, ?_, ?_, ?_⟩
        · rw [hres]; simpa using ih1
        · intro pr hpr htrim
          rw [hres, List.zip_cons_cons] at hpr
          rcases List.mem_cons.mp hpr with h | h
          · subst h; rfl
          · exact ih2 pr h htrim
        · rw [hres]; simpa [List.filter_cons, hskip, hm] using ih3
        · intro hall
          rw [hres]
          exact ih4 (fun f hf => hall f (List.mem_cons_of_mem _ hf))

/-- Witness for the amended C9: a page with no matching field yields count
    0, and a matched pre-filled field keeps its value. -/
theorem claim_C9_amended_witness :
    (fillForm { email := some "a@b.com" }
        [{ tag := "input", elType := "text", fieldId := "zzz" }]).1 = 0 ∧
    ({ tag := "input", elType := "text", fieldId := "email",
       value := "x@y.com" } : FormField).value =
      ({ tag := "input", elType := "text", fieldId := "email",
         value := "x@y.com" } : FormField).value :=
  ⟨(claim_C9_amended { email := some "a@b.com" }
      [{ tag := "input", elType := "text", fieldId := "zzz" }]).2.2.2 (by decide),
   (claim_C9_amended { email := some "a@b.com" }
      [{ tag := "input", elType := "text", fieldId := "email",
         value := "x@y.com" }]).2.1
     ({ tag := "input", elType := "text", fieldId := "email", value := "x@y.com" },
      { tag := "input", elType := "text", fieldId := "email", value := "x@y.com" })
     (by decide) (by decide)⟩

/-! ## Claims C1 and C8: the Multi-Strategy Detector -/

theorem bne_empty_of_long {s : String} (h : 200 < s.length) : (s != "") = true := by
  simp only [bne_iff_ne, ne_eq]
  intro he
  subst he
  simp [String.length] at h

/-- Claim C1: the detector evaluates structured data, then meta tags, then
    CSS selectors, in that order; the first two are accepted only when
    their description exceeds 200 characters, and the CSS-selector result
    is always accepted as final fallback, so a page with no structured
    data (or only short structured descriptions) and no meta description
    longer than 200 characters yields `method = "css_selectors"` and never
    `"schema_org"` or `"meta_tags"`. -/
theorem claim_C1 (p : Page) :
    (∀ r, detectFromSchemaOrgJson p.ldJsonScripts = some r →
        200 < r.description.length →
        (detectJobDescriptionMultiStrategy p).method = "schema_org" ∧
        (detectJobDescriptionMultiStrategy p).jd = r.description) ∧
    ((∀ r, detectFromSchemaOrgJson p.ldJsonScripts = some r →
        r.description.length ≤ 200) →
      200 < (detectFromMetaTags p).2.length →
        (detectJobDescriptionMultiStrategy p).method = "meta_tags" ∧
        (detectJobDescriptionMultiStrategy p).jd = (detectFromMetaTags p).2) ∧
    ((∀ r, detectFromSchemaOrgJson p.ldJsonScripts = some r →
        r.description.length ≤ 200) →
      (detectFromMetaTags p).2.length ≤ 200 →
        (detectJobDescriptionMultiStrategy p).method = "css_selectors" ∧
        (detectJobDescriptionMultiStrategy p).jd = p.selectorText ∧
        (detectJobDescriptionMultiStrategy p).method ≠ "schema_org" ∧
        (detectJobDescriptionMultiStrategy p).method ≠ "meta_tags") := by
  refine ⟨?_, ?_, ?_⟩
  · intro r hr hlen
    unfold detectJobDescriptionMultiStrategy
    rw [hr]
    simp [bne_empty_of_long hlen, hlen]
  · intro hschema hmeta
    unfold detectJobDescriptionMultiStrategy
    have hcond : ((detectFromMetaTags p).2 != "" && decide (200 < (detectFromMetaTags p).2.length)) = true := by
      simp [bne_empty_of_long hmeta, hmeta]
    cases hs : detectFromSchemaOrgJson p.ldJsonScripts with
    | none => simp [hcond]
    | some r =>
      have hle := hschema r hs
      have hlt : ¬(200 < r.description.length) := Nat.not_lt.mpr hle
      simp [hlt, hcond]
  · intro hschema hmeta
    unfold detectJobDescriptionMultiStrategy
    have hlt2 : ¬(200 < (detectFromMetaTags p).2.length) := Nat.not_lt.mpr hmeta
    cases hs : detectFromSchemaOrgJson p.ldJsonScripts with
    | none => simp [hlt2]
    | some r =>
      have hle := hschema r hs
      have hlt : ¬(200 < r.description.length) := Nat.not_lt.mpr hle
      simp [hlt, hlt2]

def longX : String :=
  String.mk (List.replicate 201 'x')

def jpLong : Json :=
  Json.obj [("@type", Json.str "JobPosting"), ("description", Json.str longX)]

def pageA : Page :=
  { ldJsonScripts := [some jpLong] }

def rA : SchemaJobPostingCS :=
  { title := none, company := none, description := cleanHtml longX, location := none }

def pageB : Page :=
  { ldJsonScripts := [], ogDesc := some longX, heuristicTitle := "HT",
    heuristicCompany := "HC" }

def pageC : Page :=
  { ldJsonScripts := [], selectorText := "body text" }

/-- Witness for C1 across the three strategy outcomes. -/
theorem claim_C1_witness :
    ((detectJobDescriptionMultiStrategy pageA).method = "schema_org" ∧
     (detectJobDescriptionMultiStrategy pageA).jd = rA.description) ∧
    ((detectJobDescriptionMultiStrategy pageB).method = "meta_tags" ∧
     (detectJobDescriptionMultiStrategy pageB).jd = (detectFromMetaTags pageB).2) ∧
    ((detectJobDescriptionMultiStrategy pageC).method = "css_selectors" ∧
     (detectJobDescriptionMultiStrategy pageC).jd = pageC.selectorText ∧
     (detectJobDescriptionMultiStrategy pageC).method ≠ "schema_org" ∧
     (detectJobDescriptionMultiStrategy pageC).method ≠ "meta_tags") :=
  ⟨(claim_C1 pageA).1 rA
      (by simp [pageA, detectFromSchemaOrgJson, findJobPosting, jpLong, jGet,
            typeIsJobPosting, typeArrHasJobPosting, extractStringJ, extractCompanyName,
            extractLocationJ, rA])
      (by decide),
   (claim_C1 pageB).2.1 (fun r h => nomatch h) (by decide),
   (claim_C1 pageC).2.2 (fun r h => nomatch h) (by decide)⟩

/-- Branch lemma: when structured data fails and the meta description is
    long enough, the detector returns the meta-tag result. -/
theorem metaBranchResult (q : Page)
    (hschema : ∀ r, detectFromSchemaOrgJson q.ldJsonScripts = some r →
      r.description.length ≤ 200)
    (hmeta : 200 < (detectFromMetaTags q).2.length) :
    detectJobDescriptionMultiStrategy q =
      { jd := (detectFromMetaTags q).2,
        jobTitle := orElseStr (some (detectFromMetaTags q).1) q.heuristicTitle,
        company := q.heuristicCompany, method := "meta_tags" } := by
  unfold detectJobDescriptionMultiStrategy
  have hcond : ((detectFromMetaTags q).2 != ""
      && decide (200 < (detectFromMetaTags q).2.length)) = true := by
    simp [bne_empty_of_long hmeta, hmeta]
  cases hs : detectFromSchemaOrgJson q.ldJsonScripts with
  | none => simp [hcond]
  | some r =>
    have hlt : ¬(200 < r.description.length) := Nat.not_lt.mpr (hschema r hs)
    simp [hlt, hcond]

/-- Branch lemma: when structured data and the meta description both fail
    the threshold, the detector returns the CSS-selector result with
    title/company from `detectJobInfo`. -/
theorem cssBranchResult (q : Page)
    (hschema : ∀ r, detectFromSchemaOrgJson q.ldJsonScripts = some r →
      r.description.length ≤ 200)
    (hmeta : (detectFromMetaTags q).2.length ≤ 200) :
    detectJobDescriptionMultiStrategy q =
      { jd := q.selectorText, jobTitle := (detectJobInfo q).1,
        company := (detectJobInfo q).2, method := "css_selectors" } := by
  unfold detectJobDescriptionMultiStrategy
  have hlt2 : ¬(200 < (detectFromMetaTags q).2.length) := Nat.not_lt.mpr hmeta
  cases hs : detectFromSchemaOrgJson q.ldJsonScripts with
  | none => simp [hlt2]
  | some r =>
    have hlt : ¬(200 < r.description.length) := Nat.not_lt.mpr (hschema r hs)
    simp [hlt, hlt2]

/-- Claim C8 counterexample: a page where the meta-tag strategy wins, the
    title/company heuristics are blank, and the page title matches the
    `TITLE at COMPANY` pattern — yet the returned title and company stay
    empty, because only the CSS-selector strategy consults the page-title
    pattern. -/
theorem claim_C8_counterexample :
    (detectJobDescriptionMultiStrategy
        { ldJsonScripts := [], ogDesc := some longX,
          pageTitle := "Engineer at Acme" }).method = "meta_tags" ∧
    (detectJobDescriptionMultiStrategy
        { ldJsonScripts := [], ogDesc := some longX,
          pageTitle := "Engineer at Acme" }).jobTitle = "" ∧
    (detectJobDescriptionMultiStrategy
        { ldJsonScripts := [], ogDesc := some longX,
          pageTitle := "Engineer at Acme" }).company = "" ∧
    pageTitleMatch "Engineer at Acme" = some ("Engineer", "Acme") := by
  refine ⟨by decide, by decide, by decide, by decide⟩

/-- Claim C8 (amended): only the CSS-selector strategy infers blank
    title/company from the page title via the
    `TITLE (at|@|-|–|—|\|) COMPANY` pattern (first capture, trimmed, to the
    title; second capture, trimmed, to the company); the meta-tag strategy
    resolves the title from the meta title or the title heuristic and the
    company from the company heuristic, and never consults the page
    title. -/
theorem claim_C8_amended (p : Page) :
    ((∀ r, detectFromSchemaOrgJson p.ldJsonScripts = some r →
        r.description.length ≤ 200) →
      (detectFromMetaTags p).2.length ≤ 200 →
      ∀ t c, pageTitleMatch p.pageTitle = some (t, c) →
        (p.heuristicTitle = "" →
          (detectJobDescriptionMultiStrategy p).jobTitle = trimS t) ∧
        (p.heuristicCompany = "" →
          (detectJobDescriptionMultiStrategy p).company = trimS c)) ∧
    ((∀ r, detectFromSchemaOrgJson p.ldJsonScripts = some r →
        r.description.length ≤ 200) →
      200 < (detectFromMetaTags p).2.length →
      ∀ pt, detectJobDescriptionMultiStrategy { p with pageTitle := pt }
          = detectJobDescriptionMultiStrategy p) := by
  constructor
  · intro hschema hmeta t c hmatch
    have hres := cssBranchResult p hschema hmeta
    constructor
    · intro hT
      rw [hres]
      show (detectJobInfo p).1 = trimS t
      unfold detectJobInfo
      simp [hT, hmatch]
    · intro hC
      rw [hres]
      show (detectJobInfo p).2 = trimS c
      unfold detectJobInfo
      simp [hC, hmatch]
  · intro hschema hmeta pt
    rw [metaBranchResult { p with pageTitle := pt } hschema hmeta,
      metaBranchResult p hschema hmeta]
    rfl

/-- A page with no structured data, no meta description and no heuristic
    title/company, whose page title matches the TITLE-at-COMPANY pattern. -/
def pageD : Page :=
  { ldJsonScripts := [], pageTitle := "Engineer at Acme" }

/-- Witness for the amended C8: on `pageD` the CSS-selector strategy fills
    both blanks from the page title, and on `pageB` (meta strategy) the
    result is independent of the page title. -/
theorem claim_C8_amended_witness :
    ((detectJobDescriptionMultiStrategy pageD).jobTitle = "Engineer" ∧
     (detectJobDescriptionMultiStrategy pageD).company = "Acme") ∧
    detectJobDescriptionMultiStrategy { pageB with pageTitle := "Some Other Title" }
      = detectJobDescriptionMultiStrategy pageB := by
  refine ⟨?_, ?_⟩
  · have h := (claim_C8_amended pageD).1 (fun r hr => nomatch hr) (by decide)
      "Engineer" "Acme" (by decide)
    exact ⟨h.1 rfl, h.2 rfl⟩
  · exact (claim_C8_amended pageB).2 (fun r hr => nomatch hr) (by decide)
      "Some Other Title"

/-! ## Claims C2, C6, C7: the Skill Matcher -/

/-- The gap record built for an unmatched job skill. -/
def gapOf (resumeSkills : List String) (p : String × Nat) : SkillGap :=
  { skill := capitalizeSkill p.1, priority := priorityOf p.2, mentions := p.2,
    suggestion := getSuggestion p.1 resumeSkills }

/-- Spec-side total weight: every recognized job skill contributes
    `min(mentions, 5)`. -/
def totalWeightOf (l : List (String × Nat)) : Nat :=
  (l.map (fun p => min p.2 5)).sum

/-- Spec-side matched weight: the weights of the job skills matched by the
    bidirectional substring criterion. -/
def matchedWeightOf (rs : List String) (l : List (String × Nat)) : Nat :=
  ((l.filter (fun p => hasSkillB rs p.1)).map (fun p => min p.2 5)).sum

theorem matchLoop_total (rs : List String) (l : List (String × Nat)) :
    (matchLoop rs l).2.2.1 = totalWeightOf l := by
  induction l with
  | nil => rfl
  | cons p rest ih =>
    obtain ⟨skill, mentions⟩ := p
    simp only [matchLoop, totalWeightOf, List.map_cons, List.sum_cons]
    by_cases h : hasSkillB rs skill <;> simp [h, ih, totalWeightOf] <;> omega

theorem matchLoop_matched (rs : List String) (l : List (String × Nat)) :
    (matchLoop rs l).2.2.2 = matchedWeightOf rs l := by
  induction l with
  | nil => rfl
  | cons p rest ih =>
    obtain ⟨skill, mentions⟩ := p
    simp only [matchLoop, matchedWeightOf, List.filter_cons]
    by_cases h : hasSkillB rs skill <;> simp [h, ih, matchedWeightOf] <;> omega

theorem matchLoop_missing (rs : List String) (l : List (String × Nat)) :
    (matchLoop rs l).2.1 =
      (l.filter (fun p => !hasSkillB rs p.1)).map (gapOf rs) := by
  induction l with
  | nil => rfl
  | cons p rest ih =>
    obtain ⟨skill, mentions⟩ := p
    simp only [matchLoop, List.filter_cons]
    by_cases h : hasSkillB rs skill <;> simp [h, ih, gapOf]

theorem matchedWeightOf_le (rs : List String) (l : List (String × Nat)) :
    matchedWeightOf rs l ≤ totalWeightOf l := by
  induction l with
  | nil => exact Nat.le_refl _
  | cons p rest ih =>
    simp only [matchedWeightOf, totalWeightOf, List.filter_cons, List.map_cons,
      List.sum_cons] at ih ⊢
    by_cases h : hasSkillB rs p.1 <;> simp [h] <;> omega

theorem rne_le {a b N : Nat} (hb : 0 < b) (h : a ≤ N * b) : rne a b ≤ N := by
  have hq : a / b ≤ N := by
    have h2 := Nat.div_le_div_right (c := b) h
    rwa [Nat.mul_div_cancel _ hb] at h2
  have hdm := Nat.div_add_mod a b
  have hrlt : a % b < b := Nat.mod_lt _ hb
  unfold rne
  by_cases h1 : 2 * (a % b) < b
  · rw [if_pos h1]
    exact hq
  · rw [if_neg h1]
    have hr1 : 1 ≤ a % b := by omega
    have hqlt : a / b < N := by
      by_contra hc
      have hqe : a / b = N := by omega
      have : N * b + 1 ≤ a := by
        calc N * b + 1 = b * (a / b) + 1 := by rw [hqe]; ring
          _ ≤ b * (a / b) + a % b := by omega
          _ = a := hdm
      omega
    by_cases h2 : b < 2 * (a % b)
    · rw [if_pos h2]
      omega
    · rw [if_neg h2]
      split <;> omega

theorem log2fuel_lt {k : Nat} : ∀ (fuel n : Nat), n < 2 ^ k → 0 < k →
    log2fuel fuel n < k := by
  induction k using Nat.strong_induction_on with
  | _ k ihk =>
    intro fuel n hn hk
    cases fuel with
    | zero => exact hk
    | succ fuel =>
      rw [log2fuel]
      by_cases h2 : 2 ≤ n
      · rw [if_pos h2]
        have hk2 : 2 ≤ k := by
          by_contra hc
          have : k = 1 := by omega
          rw [this] at hn
          omega
        have hpow : 2 ^ k = 2 * 2 ^ (k - 1) := by
          rw [← pow_succ']
          congr 1
          omega
        have hhalf : n / 2 < 2 ^ (k - 1) := by omega
        have := ihk (k - 1) (by omega) fuel (n / 2) hhalf (by omega)
        omega
      · rw [if_neg h2]
        exact hk

theorem flog2p_le {a b N : Nat} (hb : 0 < b) (h : a ≤ N * b) (hN : N ≤ 2 ^ 52) :
    flog2p a b ≤ 52 := by
  unfold flog2p
  by_cases hba : b ≤ a
  · rw [if_pos hba]
    have hq : a / b ≤ N := by
      have h2 := Nat.div_le_div_right (c := b) h
      rwa [Nat.mul_div_cancel _ hb] at h2
    have hlog : log2n (a / b) ≤ 52 := by
      have hlt : a / b < 2 ^ 53 := by
        calc a / b ≤ N := hq
          _ ≤ 2 ^ 52 := hN
          _ < 2 ^ 53 := by norm_num
      have := log2fuel_lt (a / b) (a / b) hlt (by norm_num)
      unfold log2n
      omega
    exact_mod_cast hlog
  · rw [if_neg hba]
    omega

theorem f64_snd_nonpos {a b N : Nat} (hb : 0 < b) (h : a ≤ N * b) (hN : N ≤ 2 ^ 52) :
    (f64 a b).2 ≤ 0 := by
  unfold f64
  by_cases ha : a = 0
  · rw [if_pos ha]
  · rw [if_neg ha]
    have hE := flog2p_le hb h hN
    dsimp only
    split <;> (dsimp only; omega)

theorem f64_fst_le {a b N : Nat} (hb : 0 < b) (h : a ≤ N * b) (hN : N ≤ 2 ^ 52) :
    (f64 a b).1 ≤ N * 2 ^ (-(f64 a b).2).toNat := by
  unfold f64
  by_cases ha : a = 0
  · rw [if_pos ha]
    dsimp only
    exact Nat.zero_le _
  · rw [if_neg ha]
    have hE := flog2p_le hb h hN
    rw [if_pos (by omega : (0:Int) ≤ 52 - flog2p a b)]
    dsimp only
    have ht : (-(flog2p a b - 52)).toNat = (52 - flog2p a b).toNat := by omega
    rw [ht]
    refine rne_le hb ?_
    calc a * 2 ^ (52 - flog2p a b).toNat
        ≤ (N * b) * 2 ^ (52 - flog2p a b).toNat := Nat.mul_le_mul_right _ h
      _ = (N * 2 ^ (52 - flog2p a b).toNat) * b := by ring

theorem mul100_le {x : Nat × Int} {N : Nat} (hN : 100 * N ≤ 2 ^ 52)
    (hx2 : x.2 ≤ 0) (hx1 : x.1 ≤ N * 2 ^ (-x.2).toNat) :
    (mul100 x).1 ≤ (100 * N) * 2 ^ (-(mul100 x).2).toNat ∧ (mul100 x).2 ≤ 0 := by
  unfold mul100
  by_cases h0 : (0:Int) ≤ x.2
  · rw [if_pos h0]
    have hx20 : x.2 = 0 := le_antisymm hx2 h0
    have harg : 100 * x.1 * 2 ^ x.2.toNat ≤ (100 * N) * 1 := by
      rw [hx20] at hx1 ⊢
      simp only [Int.toNat_zero, pow_zero, mul_one] at hx1 ⊢
      simp only [neg_zero, Int.toNat_zero, pow_zero, mul_one] at hx1
      omega
    exact ⟨f64_fst_le one_pos harg hN, f64_snd_nonpos one_pos harg hN⟩
  · rw [if_neg h0]
    have hb : (0:Nat) < 2 ^ (-x.2).toNat := Nat.pos_pow_of_pos _ (by norm_num)
    have harg : 100 * x.1 ≤ (100 * N) * 2 ^ (-x.2).toNat := by
      calc 100 * x.1 ≤ 100 * (N * 2 ^ (-x.2).toNat) := by omega
        _ = (100 * N) * 2 ^ (-x.2).toNat := by ring
    exact ⟨f64_fst_le hb harg hN, f64_snd_nonpos hb harg hN⟩

theorem jsRoundF_le {x : Nat × Int} {N : Nat}
    (hx2 : x.2 ≤ 0) (hx1 : x.1 ≤ N * 2 ^ (-x.2).toNat) :
    jsRoundF x ≤ N := by
  unfold jsRoundF
  by_cases h0 : (0:Int) ≤ x.2
  · rw [if_pos h0]
    have hx20 : x.2 = 0 := le_antisymm hx2 h0
    rw [hx20] at hx1 ⊢
    simp only [neg_zero, Int.toNat_zero, pow_zero, mul_one] at hx1 ⊢
    exact hx1
  · rw [if_neg h0]
    have h1 : 2 * x.1 + 2 ^ (-x.2).toNat ≤ (2 * N + 1) * 2 ^ (-x.2).toNat := by
      calc 2 * x.1 + 2 ^ (-x.2).toNat
          ≤ 2 * (N * 2 ^ (-x.2).toNat) + 2 ^ (-x.2).toNat := by omega
        _ = (2 * N + 1) * 2 ^ (-x.2).toNat := by ring
    have hpos : (0:Nat) < 2 ^ (-x.2).toNat * 2 := by positivity
    calc (2 * x.1 + 2 ^ (-x.2).toNat) / 2 ^ ((-x.2).toNat + 1)
        ≤ ((2 * N + 1) * 2 ^ (-x.2).toNat) / 2 ^ ((-x.2).toNat + 1) :=
          Nat.div_le_div_right h1
      _ = N := by
          rw [pow_succ]
          have he : (2 * N + 1) * 2 ^ (-x.2).toNat =
              2 ^ (-x.2).toNat + (2 ^ (-x.2).toNat * 2) * N := by ring
          rw [he, Nat.add_mul_div_left _ _ hpos,
            Nat.div_eq_of_lt (by omega : 2 ^ (-x.2).toNat < 2 ^ (-x.2).toNat * 2)]
          omega

/-- The double-precision score never exceeds 100. -/
theorem roundPct_le_100 {mw tw : Nat} (h : mw ≤ tw) (h0 : 0 < tw) :
    roundPct mw tw ≤ 100 := by
  unfold roundPct
  have h1 : mw ≤ 1 * tw := by omega
  have hx1 := f64_fst_le h0 h1 (by norm_num)
  have hx2 := f64_snd_nonpos h0 h1 (by norm_num)
  have hm := mul100_le (N := 1) (by norm_num) hx2 hx1
  have hr := jsRoundF_le hm.2 hm.1
  simpa using hr

/-- A resume whose only skills are Python, React, AWS, Docker and Git. -/
def resumeC2 : MasterResume :=
  { name := "A", email := "a@b.c", experience := [], education := [],
    skills := ["Python", "React", "AWS", "Docker", "Git"] }

/-- A job text whose recognized skills have capped weights
    5,5,5,5,5,5,5,3,2 (total 40), of which python, react, aws, docker and
    git (weights 5,5,5,5,3; total 23) match the resume. -/
def jdC2 : String :=
  "Python Python Python Python Python Java Java Java Java Java React React React React React Django Django Django Django Django Redis Redis Redis Redis Redis AWS AWS AWS AWS AWS Docker Docker Docker Docker Docker Git Git Git Jira Jira"

/-- Claim C2 counterexample: at the reachable weights matchedWeight 23 and
    totalWeight 40 the exact rational `round(100 * 23 / 40)` is 58, but the
    program's IEEE-754 double computation `(23 / 40) * 100` lands just
    under 57.5 and `Math.round` returns 57 — so `overallScore` is not the
    exact rounded ratio the claim states. -/
theorem claim_C2_counterexample :
    (calculateMatch resumeC2 jdC2).overallScore = 57 ∧
    totalWeightOf ((extractJDSkills jdC2).mergeSort byMentionsDesc) = 40 ∧
    matchedWeightOf (extractResumeSkills resumeC2)
      ((extractJDSkills jdC2).mergeSort byMentionsDesc) = 23 ∧
    specRound 23 40 = 58 ∧
    (calculateMatch resumeC2 jdC2).overallScore ≠ specRound 23 40 := by
  have hjd : extractJDSkills jdC2 =
      [("python", 5), ("java", 5), ("react", 5), ("django", 5), ("redis", 5),
       ("aws", 5), ("docker", 5), ("git", 3), ("jira", 2)] := by decide
  have hsort : (extractJDSkills jdC2).mergeSort byMentionsDesc =
      [("python", 5), ("java", 5), ("react", 5), ("django", 5), ("redis", 5),
       ("aws", 5), ("docker", 5), ("git", 3), ("jira", 2)] := by
    rw [hjd]
    exact List.mergeSort_of_sorted (by decide)
  have hscore : (calculateMatch resumeC2 jdC2).overallScore = 57 := by
    simp only [calculateMatch]
    rw [hsort]
    decide
  refine ⟨hscore, ?_, ?_, by decide, ?_⟩
  · rw [hsort]
    decide
  · rw [hsort]
    decide
  · rw [hscore]
    decide

/-- Claim C2 (amended): the Skill Matcher score is `Math.round` of the
    IEEE-754 double computation `(matchedWeight / totalWeight) * 100`
    (`roundPct`, each operation correctly rounded), over the recognized job
    skills weighted `min(mentions, 5)` with the bidirectional substring
    match criterion; this can differ by one from the exact rational
    `round(100 * matchedWeight / totalWeight)`.  The score is a natural
    number at most 100, and it is exactly 0 when no job skills are
    recognized. -/
theorem claim_C2_amended (resume : MasterResume) (jdText : String) :
    ((calculateMatch resume jdText).overallScore =
      (if 0 < totalWeightOf ((extractJDSkills jdText).mergeSort byMentionsDesc) then
        roundPct
          (matchedWeightOf (extractResumeSkills resume)
            ((extractJDSkills jdText).mergeSort byMentionsDesc))
          (totalWeightOf ((extractJDSkills jdText).mergeSort byMentionsDesc))
      else 0)) ∧
    (calculateMatch resume jdText).overallScore ≤ 100 ∧
    (extractJDSkills jdText = [] →
      (calculateMatch resume jdText).overallScore = 0) := by
  have hscore : (calculateMatch resume jdText).overallScore =
      (if 0 < totalWeightOf ((extractJDSkills jdText).mergeSort byMentionsDesc) then
        roundPct
          (matchedWeightOf (extractResumeSkills resume)
            ((extractJDSkills jdText).mergeSort byMentionsDesc))
          (totalWeightOf ((extractJDSkills jdText).mergeSort byMentionsDesc))
      else 0) := by
    simp only [calculateMatch]
    rw [matchLoop_total, matchLoop_matched]
  refine ⟨hscore, ?_, ?_⟩
  · rw [hscore]
    by_cases h0 : 0 < totalWeightOf ((extractJDSkills jdText).mergeSort byMentionsDesc)
    · rw [if_pos h0]
      exact roundPct_le_100 (matchedWeightOf_le _ _) h0
    · rw [if_neg h0]
      exact Nat.zero_le _
  · intro hempty
    rw [hscore, hempty, List.mergeSort_nil]
    rfl

/-- Witness for the amended C2: on an empty job text no skills are
    recognized and the score is 0 (and within bounds). -/
theorem claim_C2_amended_witness :
    (calculateMatch wResume "").overallScore = 0 ∧
    (calculateMatch wResume "").overallScore ≤ 100 :=
  ⟨(claim_C2_amended wResume "").2.2 rfl, (claim_C2_amended wResume "").2.1⟩

/-- The unmatched job skills in sorted order, before truncation. -/
def missingAll (resume : MasterResume) (jdText : String) : List SkillGap :=
  (((extractJDSkills jdText).mergeSort byMentionsDesc).filter
      (fun p => !hasSkillB (extractResumeSkills resume) p.1)).map
    (gapOf (extractResumeSkills resume))

theorem byMentionsDesc_trans (a b c : String × Nat) :
    byMentionsDesc a b = true → byMentionsDesc b c = true →
    byMentionsDesc a c = true := by
  simp only [byMentionsDesc, decide_eq_true_eq]
  omega

theorem byMentionsDesc_total (a b : String × Nat) :
    (byMentionsDesc a b || byMentionsDesc b a) = true := by
  simp only [byMentionsDesc, Bool.or_eq_true, decide_eq_true_eq]
  omega

/-- Claim C7: `missingSkills` is the 10-element prefix of the full sorted
    unmatched-gap list — truncation happens after the stable sort — so it
    has at most 10 entries, they are in descending mention-count order, any
    descending-sorted subsequence of the original mention list survives the
    sort (stability: ties keep insertion order), and sorting permutes the
    recognized skills (so the prefix is exactly the 10 highest-mention
    gaps). -/
theorem claim_C7 (resume : MasterResume) (jdText : String) :
    ((calculateMatch resume jdText).missingSkills =
      (missingAll resume jdText).take 10) ∧
    (calculateMatch resume jdText).missingSkills.length ≤ 10 ∧
    List.Pairwise (fun a b => b.mentions ≤ a.mentions)
      (calculateMatch resume jdText).missingSkills ∧
    ((extractJDSkills jdText).mergeSort byMentionsDesc).Perm
      (extractJDSkills jdText) ∧
    (∀ c : List (String × Nat),
      List.Pairwise (fun a b => byMentionsDesc a b = true) c →
      c.Sublist (extractJDSkills jdText) →
      c.Sublist ((extractJDSkills jdText).mergeSort byMentionsDesc)) := by
  have hmiss : (calculateMatch resume jdText).missingSkills =
      (missingAll resume jdText).take 10 := by
    simp only [calculateMatch, missingAll]
    rw [matchLoop_missing]
  have hsorted : List.Pairwise (fun a b => byMentionsDesc a b = true)
      ((extractJDSkills jdText).mergeSort byMentionsDesc) :=
    List.sorted_mergeSort byMentionsDesc_trans byMentionsDesc_total _
  refine ⟨hmiss, ?_, ?_, List.mergeSort_perm _ _, ?_⟩
  · rw [hmiss]
    calc ((missingAll resume jdText).take 10).length
        = min 10 (missingAll resume jdText).length := List.length_take ..
      _ ≤ 10 := Nat.min_le_left ..
  · rw [hmiss]
    refine List.Pairwise.sublist (List.take_sublist ..) ?_
    unfold missingAll
    rw [List.pairwise_map]
    refine List.Pairwise.filter _ ?_
    refine hsorted.imp ?_
    intro a b hab
    simpa [byMentionsDesc, gapOf] using hab
  · intro c hc hsub
    exact List.sublist_mergeSort byMentionsDesc_trans byMentionsDesc_total hc hsub

/-- Witness for C7: the cap at a concrete input, and the stability clause
    instantiated at the empty subsequence. -/
theorem claim_C7_witness :
    (calculateMatch wResume "").missingSkills.length ≤ 10 ∧
    ([] : List (String × Nat)).Sublist ((extractJDSkills "").mergeSort byMentionsDesc) :=
  ⟨(claim_C7 wResume "").2.1,
   (claim_C7 wResume "").2.2.2.2 [] List.Pairwise.nil (List.nil_sublist _)⟩

/-! ### Claim C6: requirement boost and the concrete scenario -/

/-- The raw word-boundary mention count with the `|| 1` floor. -/
def rawCount (skill : String) (jdText : String) : Nat :=
  let c := countBounded skill jdText
  if c == 0 then 1 else c

/-- The (lowercased) skills found in requirement-pattern captures, one
    entry per occurrence — each adds 3 to the mention count. -/
def boostKeys (jdText : String) : List String :=
  requirementKeywords.flatMap (fun kw =>
    (reqCaptures kw jdText).flatMap (fun cap =>
      (extractSkillsFromText cap).map (fun s => toLowerS s)))

/-- One priority bump: `skillMentions.set(key, (get(key) || 0) + 3)`. -/
def bump (m : List (String × Nat)) (k : String) : List (String × Nat) :=
  alSet m k ((alGet m k).getD 0 + 3)

theorem alGet_nil (s : String) : alGet [] s = none :=
  rfl

theorem alGet_cons_of_pos {p : String × Nat} {m : List (String × Nat)} {s : String}
    (h : p.1 = s) : alGet (p :: m) s = some p.2 := by
  unfold alGet
  rw [List.find?_cons_of_pos _ (by simpa using h)]
  rfl

theorem alGet_cons_of_neg {p : String × Nat} {m : List (String × Nat)} {s : String}
    (h : ¬ p.1 = s) : alGet (p :: m) s = alGet m s := by
  unfold alGet
  rw [List.find?_cons_of_neg _ (by simpa using h)]

theorem alGet_map_set (m : List (String × Nat)) (k s : String) (v : Nat) :
    alGet (m.map (fun q => if q.1 = k then (k, v) else q)) s =
      if s = k then
        (if m.any (fun q => decide (q.1 = k)) then some v else none)
      else alGet m s := by
  induction m with
  | nil => by_cases h : s = k <;> simp [alGet, h]
  | cons q m ih =>
    by_cases hq : q.1 = k
    · by_cases h : s = k
      · have hks : ((k, v) : String × Nat).1 = s := by simp [h]
        simp only [List.map_cons, hq, if_pos]
        rw [alGet_cons_of_pos hks]
        simp [h, hq]
      · have hks : ¬((k, v) : String × Nat).1 = s := fun hh => h hh.symm
        have hqs : ¬(q.1 = s) := fun hh => h (hh.symm.trans hq)
        simp only [List.map_cons, hq, if_pos]
        rw [alGet_cons_of_neg hks, alGet_cons_of_neg hqs] at *
        rw [ih]
        simp [h]
    · by_cases hqs : q.1 = s
      · have hsk : ¬ s = k := fun hh => hq (hqs.trans hh)
        simp only [List.map_cons, hq, if_neg, not_false_iff]
        rw [alGet_cons_of_pos hqs, alGet_cons_of_pos hqs]
        simp [hsk]
      · simp only [List.map_cons, hq, if_neg, not_false_iff]
        rw [alGet_cons_of_neg hqs, alGet_cons_of_neg hqs, ih]
        by_cases h : s = k
        · cases hb : (m.any fun q => decide (q.1 = k)) with
          | true => simp [h, hb, hq]
          | false => simp [h, hb, hq]
        · simp [h]

theorem alGet_append_single (m : List (String × Nat)) (k s : String) (v : Nat)
    (ha : (m.any fun q => decide (q.1 = k)) = false) :
    alGet (m ++ [(k, v)]) s = if s = k then some v else alGet m s := by
  induction m with
  | nil =>
    by_cases h : s = k
    · have hks : ((k, v) : String × Nat).1 = s := by simp [h]
      rw [List.nil_append, alGet_cons_of_pos hks]
      simp [h]
    · have hks : ¬((k, v) : String × Nat).1 = s := fun hh => h hh.symm
      rw [List.nil_append, alGet_cons_of_neg hks]
      simp [alGet, h]
  | cons q m ih =>
    simp only [List.any_cons, Bool.or_eq_false_iff] at ha
    obtain ⟨hq, ham⟩ := ha
    have hqk : ¬ q.1 = k := by simpa using hq
    by_cases hqs : q.1 = s
    · have hsk : ¬ s = k := fun h => hqk (hqs.trans h)
      rw [List.cons_append, alGet_cons_of_pos hqs, alGet_cons_of_pos hqs]
      simp [hsk]
    · rw [List.cons_append, alGet_cons_of_neg hqs, alGet_cons_of_neg hqs]
      exact ih ham

theorem alGet_alSet (m : List (String × Nat)) (k s : String) (v : Nat) :
    alGet (alSet m k v) s = if s = k then some v else alGet m s := by
  by_cases ha : (m.any fun q => decide (q.1 = k)) = true
  · rw [alSet, if_pos ha, alGet_map_set]
    by_cases h : s = k <;> simp [h, ha]
  · have ha' : (m.any fun q => decide (q.1 = k)) = false := by
      cases hb : (m.any fun q => decide (q.1 = k)) with
      | true => exact absurd hb ha
      | false => rfl
    rw [alSet, if_neg ha]
    exact alGet_append_single m k s v ha'

/-- Folding a fold over a flattened list is the nested fold. -/
theorem foldl_flatMap {α β γ : Type} (f : α → List β) (g : γ → β → γ)
    (l : List α) (init : γ) :
    (l.flatMap f).foldl g init = l.foldl (fun acc x => (f x).foldl g acc) init := by
  induction l generalizing init with
  | nil => rfl
  | cons x l ih =>
    rw [List.flatMap_cons, List.foldl_append, List.foldl_cons, ih]

/-- Folding the priority bumps adds `3` per occurrence of the key. -/
theorem bumpFold_get (ks : List String) (m : List (String × Nat)) (s : String) :
    alGet (ks.foldl bump m) s =
      if ks.count s = 0 then alGet m s
      else some ((alGet m s).getD 0 + 3 * ks.count s) := by
  induction ks generalizing m with
  | nil => simp
  | cons k ks ih =>
    rw [List.foldl_cons, ih]
    by_cases hsk : s = k
    · rw [hsk]
      have hbk2 : alGet (bump m k) k = some ((alGet m k).getD 0 + 3) := by
        unfold bump
        rw [alGet_alSet]
        simp
      have hc : (k :: ks).count k = ks.count k + 1 := by
        simp [List.count_cons]
      rw [hc, hbk2]
      by_cases h0 : ks.count k = 0
      · rw [if_pos h0, if_neg (by omega : ¬ ks.count k + 1 = 0), h0]
      · rw [if_neg h0, if_neg (by omega : ¬ ks.count k + 1 = 0)]
        simp only [Option.getD_some]
        congr 1
        omega
    · have hbk2 : alGet (bump m k) s = alGet m s := by
        unfold bump
        rw [alGet_alSet, if_neg hsk]
      have hks : ¬ k = s := fun hh => hsk hh.symm
      have hc : (k :: ks).count s = ks.count s := by
        simp [List.count_cons, hks]
      rw [hc, hbk2]

/-- The base mention map built by `extractJDSkills` before the boosts. -/
def baseFold (jd : String) : List (String × Nat) :=
  (extractSkillsFromText jd).foldl
    (fun m s => alSet m (toLowerS s) (rawCount (toLowerS s) jd)) []

/-- Lookup in the base fold: the raw (floored) count when the key is the
    lowercase of a recognized skill, the initial map otherwise. -/
theorem baseFold_get_aux (jd : String) (l : List String)
    (m : List (String × Nat)) (s : String) :
    alGet (l.foldl (fun m t => alSet m (toLowerS t) (rawCount (toLowerS t) jd)) m) s =
      if l.any (fun t => toLowerS t = s) then some (rawCount s jd)
      else alGet m s := by
  induction l generalizing m with
  | nil => simp
  | cons t l ih =>
    rw [List.foldl_cons, ih]
    by_cases hl : (l.any fun t => decide (toLowerS t = s)) = true
    · have hco : ((t :: l).any fun t => decide (toLowerS t = s)) = true := by
        simp only [List.any_cons, Bool.or_eq_true]
        exact Or.inr hl
      rw [if_pos hl, if_pos hco]
    · rw [if_neg hl, alGet_alSet]
      by_cases hts : s = toLowerS t
      · have hco : ((t :: l).any fun t => decide (toLowerS t = s)) = true := by
          simp only [List.any_cons, Bool.or_eq_true, decide_eq_true_eq]
          exact Or.inl hts.symm
        rw [if_pos hts, if_pos hco, hts]
      · have hco : ¬ ((t :: l).any fun t => decide (toLowerS t = s)) = true := by
          simp only [List.any_cons, Bool.or_eq_true, decide_eq_true_eq]
          rintro (hh | hh)
          · exact hts hh.symm
          · exact hl hh
        rw [if_neg hts, if_neg hco]

/-- `extractJDSkills` is the base mention map followed by one `+3` bump per
    boost-key occurrence. -/
theorem extractJDSkills_eq (jd : String) :
    extractJDSkills jd = (boostKeys jd).foldl bump (baseFold jd) := by
  simp only [boostKeys, foldl_flatMap, List.foldl_map]
  rfl

/-- The job text of the C6 scenario. -/
def jdC6 : String :=
  "Required: Kubernetes, AWS"

/-- A resume whose only skill is Docker. -/
def resumeDockerOnly : MasterResume :=
  { name := "A", email := "a@b.c", experience := [], education := [],
    skills := ["Docker"] }

def dockerSuggestion : String :=
  "You have experience with docker - consider highlighting as transferable."

/-- Claim C6: every mention count produced by `extractJDSkills` is the raw
    word-boundary count (floored to 1, and 0 when the skill is not
    recognized in the text) plus 3 for each occurrence of the skill inside
    a requirement-pattern capture; and on the job text
    "Required: Kubernetes, AWS" against a Docker-only resume, the missing
    skills are exactly kubernetes and aws with priority "required" and
    mentions 4, each carrying a suggestion referencing docker from the
    related-skills table. -/
theorem claim_C6 :
    (∀ jd s n, alGet (extractJDSkills jd) s = some n →
      n = (if (extractSkillsFromText jd).any (fun t => toLowerS t = s)
            then rawCount s jd else 0)
          + 3 * (boostKeys jd).count s) ∧
    (calculateMatch resumeDockerOnly jdC6).missingSkills =
      [{ skill := "Kubernetes", priority := "required", mentions := 4,
         suggestion := some dockerSuggestion },
       { skill := "AWS", priority := "required", mentions := 4,
         suggestion := some dockerSuggestion }] := by
  constructor
  · intro jd s n h
    rw [extractJDSkills_eq, bumpFold_get] at h
    have hbase : alGet (baseFold jd) s =
        if (extractSkillsFromText jd).any (fun t => toLowerS t = s)
          then some (rawCount s jd) else none := by
      unfold baseFold
      rw [baseFold_get_aux]
      rfl
    rw [hbase] at h
    by_cases hc : (boostKeys jd).count s = 0
    · rw [if_pos hc] at h
      rw [hc]
      by_cases hany : ((extractSkillsFromText jd).any fun t => decide (toLowerS t = s)) = true
      · rw [if_pos hany] at h
        rw [if_pos hany]
        have := Option.some.inj h
        omega
      · rw [if_neg hany] at h
        exact absurd h (by simp)
    · rw [if_neg hc] at h
      have hn := Option.some.inj h
      by_cases hany : ((extractSkillsFromText jd).any fun t => decide (toLowerS t = s)) = true
      · rw [if_pos hany] at hn
        rw [if_pos hany]
        simp only [Option.getD_some] at hn
        omega
      · rw [if_neg hany] at hn
        rw [if_neg hany]
        simp only [Option.getD_none] at hn
        omega
  · have hjd : extractJDSkills jdC6 = [("kubernetes", 4), ("aws", 4)] := by decide
    have hsort : (extractJDSkills jdC6).mergeSort byMentionsDesc =
        [("kubernetes", 4), ("aws", 4)] := by
      rw [hjd]
      exact List.mergeSort_of_sorted (by decide)
    simp only [calculateMatch]
    rw [hsort]
    decide

/-- Witness for C6: the boost formula instantiated at the scenario job text
    and the skill kubernetes, whose mention count 4 is the raw count 1 plus
    one `+3` boost. -/
theorem claim_C6_witness :
    (4 : Nat) =
      (if (extractSkillsFromText jdC6).any (fun t => toLowerS t = "kubernetes")
        then rawCount "kubernetes" jdC6 else 0)
      + 3 * (boostKeys jdC6).count "kubernetes" :=
  claim_C6.1 jdC6 "kubernetes" 4 (by decide)

/-! ### Claim C5: the LLM extractor truncation -/

/-- `collapseAux` is the identity on input without run characters. -/
theorem collapseAux_of_none {p : Char → Bool} {rep : Char} {l : List Char}
    (h : ∀ c ∈ l, p c = false) : ∀ b, collapseAux p rep b l = l := by
  induction l with
  | nil => intro b; rfl
  | cons c rest ih =>
    intro b
    have hc : p c = false := h c (List.mem_cons_self ..)
    rw [collapseAux, if_neg (by simp [hc]),
      ih (fun x hx => h x (List.mem_cons_of_mem _ hx))]

/-- `collapseNl3Aux` is the identity on newline-free input. -/
theorem collapseNl3Aux_of_none {l : List Char}
    (h : ∀ c ∈ l, (c == '\n') = false) : ∀ run, collapseNl3Aux run l = l := by
  induction l with
  | nil => intro run; rfl
  | cons c rest ih =>
    intro run
    have hc : (c == '\n') = false := h c (List.mem_cons_self ..)
    rw [collapseNl3Aux, if_neg (by simp_all),
      ih (fun x hx => h x (List.mem_cons_of_mem _ hx))]

/-- `dropWhile` is the identity when no element satisfies the predicate. -/
theorem dropWhile_of_none {p : Char → Bool} {l : List Char}
    (h : ∀ c ∈ l, p c = false) : l.dropWhile p = l := by
  cases l with
  | nil => rfl
  | cons c rest =>
    rw [List.dropWhile_cons, if_neg (by simp [h c (List.mem_cons_self ..)])]

/-- `trim` is the identity on input with no whitespace at all. -/
theorem trimL_of_none {l : List Char}
    (h : ∀ c ∈ l, isJsSpace c = false) : trimL l = l := by
  unfold trimL
  rw [dropWhile_of_none h,
    dropWhile_of_none (fun c hc => h c (List.mem_reverse.mp hc)),
    List.reverse_reverse]

/-- The cleaning pipeline of `preparePageContentForLLM` is the identity on
    whitespace-free input. -/
theorem cleaned_of_none {l : List Char}
    (h : ∀ c ∈ l, isJsSpace c = false) :
    trimL (collapseNl3 (collapseWs l)) = l := by
  have hnl : ∀ c ∈ l, (c == '\n') = false := by
    intro c hc
    cases hb : (c == '\n') with
    | false => rfl
    | true =>
      have : c = '\n' := by simpa using hb
      rw [this] at hc
      have := h _ hc
      simp [isJsSpace] at this
  rw [collapseWs, collapseAux_of_none h, collapseNl3, collapseNl3Aux_of_none hnl,
    trimL_of_none h]

/-- `lastIndexOf` keeps the accumulator when the character never occurs. -/
theorem lastIdxOfAux_of_none {c : Char} {l : List Char}
    (h : ∀ x ∈ l, (x == c) = false) :
    ∀ (i : Nat) (best : Int), lastIdxOfAux c i best l = best := by
  induction l with
  | nil => intro i best; rfl
  | cons x rest ih =>
    intro i best
    rw [lastIdxOfAux, if_neg (by simp [h x (List.mem_cons_self ..)]),
      ih (fun y hy => h y (List.mem_cons_of_mem _ hy))]

/-- `lastIndexOf` either keeps the accumulator or reports an index holding
    the character. -/
theorem lastIdxOfAux_spec (c : Char) (l : List Char) :
    ∀ (i : Nat) (best : Int), lastIdxOfAux c i best l = best ∨
      ∃ k, k < l.length ∧ l.get? k = some c ∧
        lastIdxOfAux c i best l = (i : Int) + k := by
  induction l with
  | nil => intro i best; exact Or.inl rfl
  | cons x rest ih =>
    intro i best
    rw [lastIdxOfAux]
    rcases ih (i + 1) (if x == c then (i : Int) else best) with h | ⟨k, hk, hg, he⟩
    · rw [h]
      by_cases hx : (x == c) = true
      · refine Or.inr ⟨0, by simp, ?_, ?_⟩
        · simpa using eq_of_beq hx
        · rw [if_pos hx]
          simp
      · rw [if_neg hx]
        exact Or.inl rfl
    · refine Or.inr ⟨k + 1, by simpa using hk, by simpa using hg, ?_⟩
      rw [he]
      push_cast
      ring

/-- A nonnegative `lastIndexOf` result points at the character. -/
theorem lastIdxOf_mem {c : Char} {l : List Char}
    (h : 0 ≤ lastIdxOf c l) : l.get? (lastIdxOf c l).toNat = some c := by
  rcases lastIdxOfAux_spec c l 0 (-1) with hb | ⟨k, _, hg, he⟩
  · rw [lastIdxOf] at h
    rw [hb] at h
    omega
  · rw [lastIdxOf, he]
    simpa using hg

theorem get?_replicate_of_lt (a : Char) (n i : Nat) (h : i < n) :
    (List.replicate n a).get? i = some a := by
  induction n generalizing i with
  | zero => omega
  | succ n ih =>
    cases i with
    | zero => rfl
    | succ i =>
      rw [List.replicate_succ, List.get?_cons_succ]
      exact ih i (by omega)

theorem take_two_cons (n : Nat) (a b : Char) (l : List Char) (h : 2 ≤ n) :
    List.take n (a :: b :: l) = a :: b :: List.take (n - 2) l := by
  obtain ⟨m, rfl⟩ : ∃ m, n = m + 2 := ⟨n - 2, by omega⟩
  simp only [Nat.add_sub_cancel]
  rfl

/-- One step of the `lastIndexOf` accumulator scan. -/
theorem lastIdxOfAux_cons (c x : Char) (i : Nat) (best : Int) (rest : List Char) :
    lastIdxOfAux c i best (x :: rest) =
      lastIdxOfAux c (i + 1) (if x == c then (i : Int) else best) rest :=
  rfl

/-- The cleaned page text (the `cleaned` local of the source). -/
def cleanedOf (bodyText : String) : List Char :=
  trimL (collapseNl3 (collapseWs bodyText.data))

/-- The first `maxChars` characters of the cleaned text (`truncated`). -/
def truncatedOf (bodyText : String) (maxChars : Nat) : List Char :=
  (cleanedOf bodyText).take maxChars

/-- `Math.max(lastPeriod, lastNewline, maxChars - 500)` (`breakPoint`). -/
def breakPointOf (bodyText : String) (maxChars : Nat) : Int :=
  max (max (lastIdxOf '.' (truncatedOf bodyText maxChars))
        (lastIdxOf '\n' (truncatedOf bodyText maxChars)))
    ((maxChars : Int) - 500)

/-- The 9000-character counterexample input: a period at index 1 followed
    by an unbroken run of 8998 word characters. -/
def cex5 : String :=
  String.mk ('a' :: '.' :: List.replicate 8998 'b')

/-- The content part the code actually returns on `cex5`. -/
def cex5out : List Char :=
  'a' :: '.' :: List.replicate 7499 'b'

/-- Claim C5 counterexample: on a 9000-character input whose only sentence
    boundary is the period at index 1, the code does not cut at the later
    of the last period and last newline (which would return "a." plus the
    ellipsis); the `maxChars - 500` floor inside `Math.max` forces a hard
    cut after 7501 characters, in the middle of the unbroken word run (the
    content ends in `b` and the source text continues with `b`). -/
theorem claim_C5_counterexample :
    8000 < cex5.data.length ∧
    lastIdxOf '.' (cex5.data.take 8000) = 1 ∧
    lastIdxOf '\n' (cex5.data.take 8000) = -1 ∧
    preparePageContentForLLM cex5 8000 = String.mk cex5out ++ "..." ∧
    preparePageContentForLLM cex5 8000 ≠
      String.mk (cex5.data.take 2) ++ "..." ∧
    cex5out.length = 7501 ∧
    cex5out.getLast? = some 'b' ∧
    cex5.data.get? 7501 = some 'b' := by
  have hdata : cex5.data = 'a' :: '.' :: List.replicate 8998 'b' := rfl
  have hlen : cex5.data.length = 9000 := by
    rw [hdata, List.length_cons, List.length_cons, List.length_replicate]
  have htake : cex5.data.take 8000 = 'a' :: '.' :: List.replicate 7998 'b' := by
    rw [hdata, take_two_cons 8000 _ _ _ (by norm_num), List.take_replicate]
    norm_num
  have hrepP : ∀ x ∈ List.replicate 7998 'b', (x == '.') = false := by
    intro x hx
    rw [List.eq_of_mem_replicate hx]
    rfl
  have hrepN : ∀ x ∈ List.replicate 7998 'b', (x == '\n') = false := by
    intro x hx
    rw [List.eq_of_mem_replicate hx]
    rfl
  have hlp : lastIdxOf '.' (cex5.data.take 8000) = 1 := by
    rw [htake]
    unfold lastIdxOf
    rw [lastIdxOfAux_cons, lastIdxOfAux_cons]
    norm_num
    exact lastIdxOfAux_of_none hrepP _ _
  have hln : lastIdxOf '\n' (cex5.data.take 8000) = -1 := by
    rw [htake]
    unfold lastIdxOf
    rw [lastIdxOfAux_cons, lastIdxOfAux_cons]
    norm_num
    exact lastIdxOfAux_of_none hrepN _ _
  have hnows : ∀ c ∈ cex5.data, isJsSpace c = false := by
    rw [hdata]
    intro c hc
    rcases List.mem_cons.mp hc with rfl | hc
    · rfl
    rcases List.mem_cons.mp hc with rfl | hc
    · rfl
    rw [List.eq_of_mem_replicate hc]
    rfl
  have hclean : trimL (collapseNl3 (collapseWs cex5.data)) = cex5.data :=
    cleaned_of_none hnows
  have htake2 : (cex5.data.take 8000).take 7501 = cex5out := by
    rw [htake, take_two_cons 7501 _ _ _ (by norm_num), List.take_replicate, cex5out]
    norm_num
  have hout : preparePageContentForLLM cex5 8000 = String.mk cex5out ++ "..." := by
    simp only [preparePageContentForLLM]
    rw [hclean, if_pos (by rw [hlen]; norm_num)]
    rw [hlp, hln]
    norm_num
    rw [show Int.toNat 7501 = 7501 from rfl, htake2]
  have hlenout : cex5out.length = 7501 := by
    show ('a' :: '.' :: List.replicate 7499 'b').length = 7501
    rw [List.length_cons, List.length_cons, List.length_replicate]
  refine ⟨by rw [hlen]; norm_num, hlp, hln, hout, ?_, hlenout, ?_, ?_⟩
  · rw [hout]
    intro heq
    have hd : cex5out ++ "...".data = cex5.data.take 2 ++ "...".data := by
      have hda := congrArg String.data heq
      rw [String.data_append, String.data_append] at hda
      exact hda
    have hl := congrArg List.length hd
    rw [List.length_append, List.length_append, List.length_take, hlen, hlenout] at hl
    omega
  · have hsplit : cex5out = ('a' :: '.' :: List.replicate 7498 'b') ++ ['b'] := by
      show 'a' :: '.' :: List.replicate 7499 'b' = _
      rw [show (7499 : Nat) = 7498 + 1 from by norm_num, List.replicate_succ',
        List.cons_append, List.cons_append]
    rw [hsplit]
    exact List.getLast?_concat _
  · rw [hdata, show (7501 : Nat) = 7499 + 1 + 1 from by norm_num,
      List.get?_cons_succ, List.get?_cons_succ]
    exact get?_replicate_of_lt 'b' 8998 7499 (by norm_num)

/-- Claim C5 (amended): when the cleaned page text exceeds the budget, the
    prepared content is the first `breakPoint + 1` cleaned characters plus
    an ellipsis, where `breakPoint` is the maximum of the last period, the
    last newline and the `maxChars - 500` floor — the floor applies always,
    so the result ends at a sentence or line boundary exactly when the
    later of the two boundary positions is at least `maxChars - 500`; the
    prompt's job-content section is `pageContent.slice(0, 8000)`, hence at
    most 8000 characters. -/
theorem claim_C5_amended (bodyText : String) (maxChars : Nat)
    (h : maxChars < (cleanedOf bodyText).length) :
    preparePageContentForLLM bodyText maxChars =
      String.mk ((truncatedOf bodyText maxChars).take
        (breakPointOf bodyText maxChars + 1).toNat) ++ "..." ∧
    buildExtractionPrompt (preparePageContentForLLM bodyText maxChars) =
      JOB_EXTRACTION_PROMPT ++
        String.mk ((preparePageContentForLLM bodyText maxChars).data.take 8000) ∧
    ((preparePageContentForLLM bodyText maxChars).data.take 8000).length ≤ 8000 ∧
    (0 ≤ max (lastIdxOf '.' (truncatedOf bodyText maxChars))
          (lastIdxOf '\n' (truncatedOf bodyText maxChars)) →
      (maxChars : Int) - 500 ≤
        max (lastIdxOf '.' (truncatedOf bodyText maxChars))
          (lastIdxOf '\n' (truncatedOf bodyText maxChars)) →
      (truncatedOf bodyText maxChars).get?
          (breakPointOf bodyText maxChars).toNat = some '.' ∨
      (truncatedOf bodyText maxChars).get?
          (breakPointOf bodyText maxChars).toNat = some '\n') := by
  refine ⟨?_, rfl, ?_, ?_⟩
  · have hcond : (trimL (collapseNl3 (collapseWs bodyText.data))).length > maxChars := h
    simp only [preparePageContentForLLM]
    rw [if_pos hcond]
    rfl
  · rw [List.length_take]
    exact Nat.min_le_left ..
  · intro h0 hfloor
    have hbp : breakPointOf bodyText maxChars =
        max (lastIdxOf '.' (truncatedOf bodyText maxChars))
          (lastIdxOf '\n' (truncatedOf bodyText maxChars)) := by
      rw [breakPointOf]
      exact max_eq_left hfloor
    rcases max_choice (lastIdxOf '.' (truncatedOf bodyText maxChars))
        (lastIdxOf '\n' (truncatedOf bodyText maxChars)) with hm | hm
    · left
      rw [hbp, hm]
      exact lastIdxOf_mem (by rw [hm] at h0; exact h0)
    · right
      rw [hbp, hm]
      exact lastIdxOf_mem (by rw [hm] at h0; exact h0)

/-! ### Claim C4: structured-data descriptions -/

/-- The head emitted by `collapseAux` in run state never satisfies the run
    predicate. -/
theorem collapseAux_head {p : Char → Bool} {rep : Char} {l : List Char} {c : Char}
    (h : (collapseAux p rep true l).head? = some c) : p c = false := by
  induction l with
  | nil => simp [collapseAux] at h
  | cons x rest ih =>
    by_cases hx : p x = true
    · rw [collapseAux, if_pos hx, if_pos rfl] at h
      exact ih h
    · rw [collapseAux, if_neg hx] at h
      simp only [List.head?_cons, Option.some.injEq] at h
      rw [← h]
      cases hpx : p x with
      | true => exact absurd hpx hx
      | false => rfl

/-- `collapseAux` never emits two adjacent run characters. -/
theorem collapseAux_chain {p : Char → Bool} {rep : Char} (l : List Char) :
    ∀ b, List.Chain' (fun a c => ¬(p a = true ∧ p c = true)) (collapseAux p rep b l) := by
  induction l with
  | nil => intro b; simp [collapseAux]
  | cons x rest ih =>
    intro b
    by_cases hx : p x = true
    · cases b with
      | true =>
        rw [collapseAux, if_pos hx, if_pos rfl]
        exact ih true
      | false =>
        rw [collapseAux, if_pos hx, if_neg (by simp)]
        rw [List.chain'_cons']
        refine ⟨?_, ih true⟩
        intro y hy hcon
        have hfy := collapseAux_head (Option.mem_def.mp hy)
        rw [hfy] at hcon
        exact Bool.false_ne_true hcon.2
    · rw [collapseAux, if_neg hx]
      rw [List.chain'_cons']
      refine ⟨?_, ih false⟩
      intro y _ hcon
      exact hx hcon.1

/-- Every character emitted by `collapseAux` is the replacement or an
    original character outside the run class. -/
theorem mem_collapseAux {p : Char → Bool} {rep : Char} {l : List Char} {c : Char} :
    ∀ {b}, c ∈ collapseAux p rep b l → c = rep ∨ p c = false := by
  induction l with
  | nil => intro b h; simp [collapseAux] at h
  | cons x rest ih =>
    intro b h
    by_cases hx : p x = true
    · cases b with
      | true =>
        rw [collapseAux, if_pos hx, if_pos rfl] at h
        exact ih h
      | false =>
        rw [collapseAux, if_pos hx, if_neg (by simp)] at h
        rcases List.mem_cons.mp h with rfl | h
        · exact Or.inl rfl
        · exact ih h
    · rw [collapseAux, if_neg hx] at h
      rcases List.mem_cons.mp h with rfl | h
      · right
        cases hpx : p c with
        | true => exact absurd hpx hx
        | false => rfl
      · exact ih h

/-- The head surviving `dropWhile` fails the predicate. -/
theorem head?_dropWhile {p : Char → Bool} {l : List Char} {c : Char}
    (h : (l.dropWhile p).head? = some c) : p c = false := by
  induction l with
  | nil => simp [List.dropWhile] at h
  | cons x rest ih =>
    rw [List.dropWhile_cons] at h
    by_cases hx : p x = true
    · rw [if_pos hx] at h
      exact ih h
    · rw [if_neg hx] at h
      simp only [List.head?_cons, Option.some.injEq] at h
      rw [← h]
      cases hpx : p x with
      | true => exact absurd hpx hx
      | false => rfl

/-- The last element of a `dropWhile` result is the last of the input. -/
theorem getLast?_dropWhile {p : Char → Bool} {l : List Char} {c : Char}
    (h : (l.dropWhile p).getLast? = some c) : l.getLast? = some c := by
  induction l with
  | nil => simpa using h
  | cons x rest ih =>
    rw [List.dropWhile_cons] at h
    by_cases hx : p x = true
    · rw [if_pos hx] at h
      have hr := ih h
      cases rest with
      | nil => simp at hr
      | cons y t =>
        rw [List.getLast?_cons_cons]
        exact hr
    · rw [if_neg hx] at h
      exact h

/-- `trim` keeps an infix of its input. -/
theorem trimL_isInfix (l : List Char) : trimL l <:+: l := by
  unfold trimL
  have h1 : l.dropWhile isJsSpace <:+ l := List.dropWhile_suffix _
  have h2 : (l.dropWhile isJsSpace).reverse.dropWhile isJsSpace <:+
      (l.dropWhile isJsSpace).reverse := List.dropWhile_suffix _
  have h3 : ((l.dropWhile isJsSpace).reverse.dropWhile isJsSpace).reverse <+:
      l.dropWhile isJsSpace := by
    have := h2.reverse
    rwa [List.reverse_reverse] at this
  exact h3.isInfix.trans h1.isInfix

/-- `trim` is the identity when neither end is whitespace. -/
theorem trimL_eq_self {l : List Char}
    (h1 : ∀ c, l.head? = some c → isJsSpace c = false)
    (h2 : ∀ c, l.getLast? = some c → isJsSpace c = false) : trimL l = l := by
  unfold trimL
  have hd : l.dropWhile isJsSpace = l := by
    cases l with
    | nil => rfl
    | cons c rest => rw [List.dropWhile_cons, if_neg (by simp [h1 c rfl])]
  rw [hd]
  have hd2 : l.reverse.dropWhile isJsSpace = l.reverse := by
    cases hr : l.reverse with
    | nil => rfl
    | cons c rest =>
      have hlast : l.getLast? = some c := by
        rw [← List.head?_reverse, hr]
        rfl
      rw [List.dropWhile_cons, if_neg (by simp [h2 c hlast])]
  rw [hd2, List.reverse_reverse]

/-- The collapsed whitespace output contains no newline. -/
theorem collapseWs_no_nl {l : List Char} : ∀ c ∈ collapseWs l, (c == '\n') = false := by
  intro c hc
  rcases mem_collapseAux hc with rfl | hns
  · rfl
  · cases hb : (c == '\n') with
    | false => rfl
    | true =>
      have hcn : c = '\n' := by simpa using hb
      rw [hcn] at hns
      exact absurd hns (by decide)

/-- After `\s+` collapsing the `\n+` pass is the identity, so `cleanText`
    is collapse-then-trim. -/
theorem cleanTextL_eq (l : List Char) : cleanTextL l = trimL (collapseWs l) := by
  unfold cleanTextL collapseNl
  rw [collapseAux_of_none collapseWs_no_nl false]

theorem cleanTextL_head {l : List Char} {c : Char}
    (h : (cleanTextL l).head? = some c) : isJsSpace c = false := by
  rw [cleanTextL_eq] at h
  unfold trimL at h
  rw [List.head?_reverse] at h
  have h2 := getLast?_dropWhile h
  rw [List.getLast?_reverse] at h2
  exact head?_dropWhile h2

theorem cleanTextL_getLast {l : List Char} {c : Char}
    (h : (cleanTextL l).getLast? = some c) : isJsSpace c = false := by
  rw [cleanTextL_eq] at h
  unfold trimL at h
  rw [List.getLast?_reverse] at h
  exact head?_dropWhile h

theorem cleanTextL_chain (l : List Char) :
    List.Chain' (fun a b => ¬(isJsSpace a = true ∧ isJsSpace b = true)) (cleanTextL l) := by
  rw [cleanTextL_eq]
  exact List.Chain'.infix (collapseAux_chain l false) (trimL_isInfix _)

/-- Script/style removal is the identity on tag-free text. -/
theorem removeScriptStyleAux_of_none {l : List Char}
    (h : ∀ c ∈ l, (c == '<') = false) :
    ∀ n, l.length ≤ n → removeScriptStyleAux n l = l := by
  induction l with
  | nil => intro n hn; cases n <;> rfl
  | cons c rest ih =>
    intro n hn
    cases n with
    | zero => simp at hn
    | succ m =>
      rw [removeScriptStyleAux, if_neg (by simp [h c (List.mem_cons_self ..)]),
        ih (fun x hx => h x (List.mem_cons_of_mem _ hx)) m
          (by simp at hn; omega)]

/-- Tag stripping is the identity on tag-free text. -/
theorem stripTagsAux_of_none {l : List Char}
    (h : ∀ c ∈ l, (c == '<') = false) : stripTagsAux false l = l := by
  induction l with
  | nil => rfl
  | cons c rest ih =>
    rw [stripTagsAux, if_neg (by simp [h c (List.mem_cons_self ..)]),
      ih (fun x hx => h x (List.mem_cons_of_mem _ hx))]

/-- Character-reference decoding is the identity on `&`-free text. -/
theorem decodeEntitiesAux_of_none {l : List Char}
    (h : ∀ c ∈ l, (c == '&') = false) :
    ∀ n, l.length ≤ n → decodeEntitiesAux n l = l := by
  induction l with
  | nil => intro n hn; cases n <;> rfl
  | cons c rest ih =>
    intro n hn
    cases n with
    | zero => simp at hn
    | succ m =>
      rw [decodeEntitiesAux, if_neg (by simp [h c (List.mem_cons_self ..)]),
        ih (fun x hx => h x (List.mem_cons_of_mem _ hx)) m
          (by simp at hn; omega)]

/-- On text with no `<` and no `&` at all — no markup and no character
    references — `cleanHtml` is exactly `cleanText`. -/
theorem cleanHtml_of_plain {s : String} (h : ∀ c ∈ s.data, (c == '<') = false)
    (ha : ∀ c ∈ s.data, (c == '&') = false) :
    cleanHtml s = cleanText s := by
  unfold cleanHtml cleanText cleanHtmlL removeScriptStyle decodeEntities
  rw [removeScriptStyleAux_of_none h _ (Nat.le_refl _), stripTagsAux_of_none h,
    decodeEntitiesAux_of_none ha _ (Nat.le_refl _)]

/-- The content-script Schema.org loop returns the record built from the
    first JobPosting node it finds, with the description cleaned. -/
theorem detect_firstJP (scripts : List (Option Json)) (r : SchemaJobPostingCS)
    (h : detectFromSchemaOrgJson scripts = some r) :
    ∃ jp, firstJobPosting scripts = some jp ∧
      r.description = cleanHtml ((extractStringJ (jGet jp "description")).getD "") := by
  induction scripts with
  | nil => exact absurd h (by simp [detectFromSchemaOrgJson])
  | cons o rest ih =>
    cases o with
    | none =>
      rw [detectFromSchemaOrgJson] at h
      rcases ih h with ⟨jp, hjp, hdesc⟩
      exact ⟨jp, by rw [firstJobPosting]; exact hjp, hdesc⟩
    | some data =>
      cases hf : findJobPosting data with
      | some jp =>
        simp only [detectFromSchemaOrgJson, hf] at h
        refine ⟨jp, by simp only [firstJobPosting, hf], ?_⟩
        have hr := Option.some.inj h
        rw [← hr]
      | none =>
        simp only [detectFromSchemaOrgJson, hf] at h
        rcases ih h with ⟨jp, hjp, hdesc⟩
        refine ⟨jp, ?_, hdesc⟩
        simp only [firstJobPosting, hf]
        exact hjp

/-- The counterexample JobPosting node: a well-formed direct `@type` match
    whose description has leading/trailing whitespace and an inner run. -/
def cexJP4 : Json :=
  .obj [("@type", Json.str "JobPosting"),
        ("title", Json.str "T"),
        ("description", Json.str "  hello   world  ")]

/-- Claim C4 counterexample: `parseJobPosting` of the schema.org detector
    returns the `description` field verbatim — with leading and trailing
    whitespace and an uncollapsed space run — on a well-formed JobPosting,
    so the returned description is neither trimmed nor
    whitespace-normalized. -/
theorem claim_C4_counterexample :
    (parseJobPosting cexJP4).description = "  hello   world  " ∧
    extractSchemaOrgJobPosting [some cexJP4] = some (parseJobPosting cexJP4) ∧
    trimS (parseJobPosting cexJP4).description ≠ (parseJobPosting cexJP4).description ∧
    cleanText (parseJobPosting cexJP4).description ≠ (parseJobPosting cexJP4).description := by
  have hdesc : (parseJobPosting cexJP4).description = "  hello   world  " := rfl
  have hfind : findJobPosting cexJP4 = some cexJP4 := by
    simp [findJobPosting, cexJP4, jGet, typeIsJobPosting]
  refine ⟨hdesc, ?_, ?_, ?_⟩
  · simp only [extractSchemaOrgJobPosting, hfind]
  · rw [hdesc]
    decide
  · rw [hdesc]
    decide

/-- Claim C4 (amended): the description invariant holds for the content
    script's Schema.org strategy, not the library extractor: whenever
    `detectFromSchemaOrg` returns a result, its description is `cleanHtml`
    of the found JobPosting node's raw description field — HTML parsed
    (tags dropped, character references decoded), trimmed, free of adjacent
    whitespace pairs, and equal to the plain `cleanText` whitespace
    normalization exactly on raw text with no markup and no character
    references (no `<` and no `&`; `&amp;` decodes, so entity-bearing text
    differs from its `cleanText`) — while `parseJobPosting` of the
    schema.org detector returns the raw description field unchanged. -/
theorem claim_C4_amended (scripts : List (Option Json)) (r : SchemaJobPostingCS)
    (h : detectFromSchemaOrgJson scripts = some r) :
    (∃ jp, firstJobPosting scripts = some jp ∧
      r.description = cleanHtml ((extractStringJ (jGet jp "description")).getD "")) ∧
    (∀ c, r.description.data.head? = some c → isJsSpace c = false) ∧
    (∀ c, r.description.data.getLast? = some c → isJsSpace c = false) ∧
    List.Chain' (fun a b => ¬(isJsSpace a = true ∧ isJsSpace b = true))
      r.description.data ∧
    trimS r.description = r.description ∧
    (∀ data, (parseJobPosting data).description =
      (extractStringJ (jGet data "description")).getD "") ∧
    (∀ raw, (∀ c ∈ raw.data, (c == '<') = false) →
      (∀ c ∈ raw.data, (c == '&') = false) → cleanHtml raw = cleanText raw) ∧
    cleanHtml "Pay &amp; benefits" = "Pay & benefits" ∧
    cleanText "Pay &amp; benefits" ≠ "Pay & benefits" := by
  obtain ⟨jp, hjp, hdesc⟩ := detect_firstJP scripts r h
  have hd : r.description.data =
      cleanTextL (decodeEntities (stripTagsAux false (removeScriptStyle
        ((extractStringJ (jGet jp "description")).getD "").data))) := by
    rw [hdesc]
    rfl
  have hhead : ∀ c, r.description.data.head? = some c → isJsSpace c = false := by
    intro c hc
    rw [hd] at hc
    exact cleanTextL_head hc
  have hlast : ∀ c, r.description.data.getLast? = some c → isJsSpace c = false := by
    intro c hc
    rw [hd] at hc
    exact cleanTextL_getLast hc
  refine ⟨⟨jp, hjp, hdesc⟩, hhead, hlast, ?_, ?_, fun data => rfl,
    fun raw hraw hamp => cleanHtml_of_plain hraw hamp, by decide, by decide⟩
  · rw [hd]
    exact cleanTextL_chain _
  · unfold trimS
    rw [trimL_eq_self hhead hlast]

/-- A witness script block: a JobPosting whose raw description carries
    markup and whitespace runs. -/
def wJP4 : Json :=
  .obj [("@type", Json.str "JobPosting"),
        ("description", Json.str "  <p>Hello   world</p>  ")]

def wR4 : SchemaJobPostingCS :=
  { title := none, company := none, description := "Hello world", location := none }

/-- Witness for the amended C4: on `wJP4` the content-script strategy
    returns the cleaned description, whose character list has no adjacent
    whitespace and is trim-stable; on text with no tags and no character
    references `cleanHtml` is `cleanText`; and `&amp;` decodes. -/
theorem claim_C4_amended_witness :
    List.Chain' (fun a b => ¬(isJsSpace a = true ∧ isJsSpace b = true))
      wR4.description.data ∧
    trimS wR4.description = wR4.description ∧
    cleanHtml "plain text" = cleanText "plain text" ∧
    cleanHtml "Pay &amp; benefits" = "Pay & benefits" := by
  have hloc : extractLocationJ (jGet wJP4 "jobLocation") = none := by
    have hj : jGet wJP4 "jobLocation" = none := rfl
    rw [hj]
    simp [extractLocationJ]
  have hfind : findJobPosting wJP4 = some wJP4 := by
    simp [findJobPosting, wJP4, jGet, typeIsJobPosting]
  have h : detectFromSchemaOrgJson [some wJP4] = some wR4 := by
    simp only [detectFromSchemaOrgJson, hfind, hloc]
    rfl
  exact ⟨(claim_C4_amended [some wJP4] wR4 h).2.2.2.1,
         (claim_C4_amended [some wJP4] wR4 h).2.2.2.2.1,
         (claim_C4_amended [some wJP4] wR4 h).2.2.2.2.2.2.1 "plain text"
           (by decide) (by decide),
         (claim_C4_amended [some wJP4] wR4 h).2.2.2.2.2.2.2.1⟩

/-- A 510-character whitespace-free input with a period at index 10, cut
    against a budget of 506. -/
def w5body : String :=
  String.mk (List.replicate 10 'x' ++ '.' :: List.replicate 499 'y')

/-- Witness for the amended C5: on `w5body` with budget 506 the prepared
    content is the characterized cut, and since the last period (index 10)
    is past the floor `506 - 500`, the cut lands on the period. -/
theorem claim_C5_amended_witness :
    (preparePageContentForLLM w5body 506 =
      String.mk ((truncatedOf w5body 506).take
        (breakPointOf w5body 506 + 1).toNat) ++ "...") ∧
    ((truncatedOf w5body 506).get? (breakPointOf w5body 506).toNat = some '.' ∨
     (truncatedOf w5body 506).get? (breakPointOf w5body 506).toNat = some '\n') :=
  ⟨(claim_C5_amended w5body 506 (by decide)).1,
   (claim_C5_amended w5body 506 (by decide)).2.2.2 (by decide) (by decide)⟩

end CVTailor
